import Mathlib

/-!
Verification of the source-resolution and content-addressable-store subsystem
of the apkg package manager (Go), via a shallow embedding in Lean.

The embedding models:
 * `pkg/store/store.go` — the content-addressable store (path construction,
   existence, create/remove, deterministic directory hashing, file I/O);
 * `pkg/source/git.go` — the git source (ref resolution, short-hash
   expansion, fetch with cache and rollback);
 * `pkg/source/npm.go`, `pkg/source/uv.go`, `pkg/source/go.go`,
   `pkg/source/oci.go`, static source — the managed-package, container and
   static sources;
 * the reference parser (`ParseRef`) and the installer's lockfile-assisted
   short-circuit (`pkg/installer/installer.go`).

Filesystem state is modelled explicitly (`StoreFS`); external effects
(subprocesses, registries, the network) are oracle inputs carried by
per-source environment records, so a `Fetch` is a pure function of the
source fields, the oracle outcomes, and the store state.  Byte strings are
`List Nat`; machine 32-bit arithmetic is `Nat` with explicit `% 2^32`.
SHA-256 is implemented executably, following FIPS 180-4 exactly as Go's
`crypto/sha256` computes it over the accumulated writes.
-/

set_option maxRecDepth 100000

namespace Apkg

/-! ### 32-bit words and SHA-256 (crypto/sha256, FIPS 180-4) -/

/-- Truncate to a 32-bit word: Go `uint32` arithmetic is arithmetic mod 2^32. -/
def w32 (n : Nat) : Nat := n % 4294967296

/-- 32-bit right rotation. -/
def rotr32 (x n : Nat) : Nat := w32 ((x >>> n) ||| (x <<< (32 - n)))

/-- SHA-256 choice function Ch(x,y,z); `~x` is 32-bit complement. -/
def shaCh (x y z : Nat) : Nat := w32 ((x &&& y) ^^^ ((x ^^^ 4294967295) &&& z))

/-- SHA-256 majority function Maj(x,y,z). -/
def shaMaj (x y z : Nat) : Nat := w32 ((x &&& y) ^^^ (x &&& z) ^^^ (y &&& z))

/-- SHA-256 Σ₀. -/
def bigSigma0 (x : Nat) : Nat := (rotr32 x 2) ^^^ (rotr32 x 13) ^^^ (rotr32 x 22)

/-- SHA-256 Σ₁. -/
def bigSigma1 (x : Nat) : Nat := (rotr32 x 6) ^^^ (rotr32 x 11) ^^^ (rotr32 x 25)

/-- SHA-256 σ₀. -/
def smallSigma0 (x : Nat) : Nat := (rotr32 x 7) ^^^ (rotr32 x 18) ^^^ (x >>> 3)

/-- SHA-256 σ₁. -/
def smallSigma1 (x : Nat) : Nat := (rotr32 x 17) ^^^ (rotr32 x 19) ^^^ (x >>> 10)

/-- The 64 SHA-256 round constants. -/
def shaK : List Nat :=
  [1116352408, 1899447441, 3049323471, 3921009573, 961987163, 1508970993,
   2453635748, 2870763221, 3624381080, 310598401, 607225278, 1426881987,
   1925078388, 2162078206, 2614888103, 3248222580, 3835390401, 4022224774,
   264347078, 604807628, 770255983, 1249150122, 1555081692, 1996064986,
   2554220882, 2821834349, 2952996808, 3210313671, 3336571891, 3584528711,
   113926993, 338241895, 666307205, 773529912, 1294757372, 1396182291,
   1695183700, 1986661051, 2177026350, 2456956037, 2730485921, 2820302411,
   3259730800, 3345764771, 3516065817, 3600352804, 4094571909, 275423344,
   430227734, 506948616, 659060556, 883997877, 958139571, 1322822218,
   1537002063, 1747873779, 1955562222, 2024104815, 2227730452, 2361852424,
   2428436474, 2756734187, 3204031479, 3329325298]

/-- The eight SHA-256 working registers. -/
structure ShaRegs where
  a : Nat
  b : Nat
  c : Nat
  d : Nat
  e : Nat
  f : Nat
  g : Nat
  h : Nat
deriving DecidableEq

/-- The SHA-256 initial hash value. -/
def shaInit : ShaRegs :=
  ⟨1779033703, 3144134277, 1013904242, 2773480762,
   1359893119, 2600822924, 528734635, 1541459225⟩

/-- Big-endian 32-bit word from four message bytes starting at index `i`. -/
def word32At (b : List Nat) (i : Nat) : Nat :=
  w32 ((b.getD i 0) * 16777216 + (b.getD (i + 1) 0) * 65536 +
       (b.getD (i + 2) 0) * 256 + b.getD (i + 3) 0)

/-- Extend the 16 message-schedule words to 64. -/
def shaExtend (w0 : List Nat) : List Nat :=
  (List.range 48).foldl
    (fun w _ =>
      w ++ [w32 (smallSigma1 (w.getD (w.length - 2) 0) + w.getD (w.length - 7) 0 +
                 smallSigma0 (w.getD (w.length - 15) 0) + w.getD (w.length - 16) 0)])
    w0

/-- One SHA-256 compression round; `p` is the pair (Wₜ, Kₜ). -/
def shaRound (r : ShaRegs) (p : Nat × Nat) : ShaRegs :=
  let t1 := w32 (r.h + bigSigma1 r.e + shaCh r.e r.f r.g + p.2 + p.1)
  let t2 := w32 (bigSigma0 r.a + shaMaj r.a r.b r.c)
  ⟨w32 (t1 + t2), r.a, r.b, r.c, w32 (r.d + t1), r.e, r.f, r.g⟩

/-- Compress one 64-byte block into the running hash state. -/
def shaCompress (r0 : ShaRegs) (block : List Nat) : ShaRegs :=
  let w := shaExtend ((List.range 16).map (fun i => word32At block (4 * i)))
  let rf := (w.zip shaK).foldl shaRound r0
  ⟨w32 (r0.a + rf.a), w32 (r0.b + rf.b), w32 (r0.c + rf.c), w32 (r0.d + rf.d),
   w32 (r0.e + rf.e), w32 (r0.f + rf.f), w32 (r0.g + rf.g), w32 (r0.h + rf.h)⟩

/-- SHA-256 padding: `0x80`, zeros to 56 mod 64, then the 64-bit big-endian
bit length. -/
def shaPad (msg : List Nat) : List Nat :=
  let lenBits := (msg.length * 8) % 18446744073709551616
  let padZeros := (119 - msg.length % 64) % 64
  msg ++ 128 :: List.replicate padZeros 0 ++
    [56, 48, 40, 32, 24, 16, 8, 0].map (fun s => (lenBits >>> s) % 256)

/-- Fold the compression function over consecutive 64-byte blocks.  The fuel
argument (instantiated with the padded length, an upper bound on the block
count) makes the recursion structural. -/
def shaBlocks : Nat → List Nat → ShaRegs → ShaRegs
  | 0, _, r => r
  | _ + 1, [], r => r
  | fuel + 1, b :: bs, r => shaBlocks fuel ((b :: bs).drop 64) (shaCompress r ((b :: bs).take 64))

/-- Big-endian bytes of a 32-bit word. -/
def wordBytes (x : Nat) : List Nat := [(x >>> 24) % 256, (x >>> 16) % 256, (x >>> 8) % 256, x % 256]

/-- SHA-256 of a byte string, as its 32 digest bytes (the eight final
hash words, big-endian). -/
def sha256 (msg : List Nat) : List Nat :=
  let p := shaPad msg
  let r := shaBlocks p.length p shaInit
  [r.a, r.b, r.c, r.d, r.e, r.f, r.g, r.h].flatMap wordBytes

/-- Lowercase hex digit for a value below 16 (the encoding/hex alphabet:
digits from code point 48, letters from code point 97). -/
def hexDigitChar (n : Nat) : Char :=
  if n < 10 then Char.ofNat (48 + n) else Char.ofNat (87 + n)

/-- `hex.EncodeToString`: two lowercase hex digits per byte. -/
def hexOfBytes (bs : List Nat) : String :=
  ⟨bs.foldr (fun b acc => hexDigitChar (b / 16 % 16) :: hexDigitChar (b % 16) :: acc) []⟩

/-- FIPS 180-4 test vector: the digest of the empty message. -/
theorem sha256_empty_vector :
    hexOfBytes (sha256 []) = "e3b0c44298fc1c149afbf4c8996fb92427ae41e4649b934ca495991b7852b855" := by
  decide

/-- FIPS 180-4 test vector: the digest of "abc". -/
theorem sha256_abc_vector :
    hexOfBytes (sha256 [97, 98, 99]) =
      "ba7816bf8f01cfea414140de5dae2223b00361a396177a9cb410ff61f20015ad" := by
  decide

/-! ### String utilities

The Go code uses `strings`/`path/filepath` helpers over UTF-8 byte strings.
Lean's own `String` primitives are iterator-based and do not reduce in the
kernel, so the embedding re-implements the needed helpers structurally over
`String.data`.  All inputs in this subsystem are treated as sequences of
characters; byte indices and character indices agree on the ASCII data the
subsystem handles (hex hashes, package names, path segments). -/

/-- UTF-8 encoding of one character (what Go's `[]byte(s)` contains). -/
def utf8Char (c : Char) : List Nat :=
  let n := c.toNat
  if n < 128 then [n]
  else if n < 2048 then [192 + n / 64, 128 + n % 64]
  else if n < 65536 then [224 + n / 4096, 128 + n / 64 % 64, 128 + n % 64]
  else [240 + n / 262144, 128 + n / 4096 % 64, 128 + n / 64 % 64, 128 + n % 64]

/-- UTF-8 bytes of a character list. -/
def utf8Bytes (cs : List Char) : List Nat := cs.flatMap utf8Char

/-- UTF-8 bytes of a string (Go `[]byte(s)`). -/
def strBytes (s : String) : List Nat := utf8Bytes s.data

/-- Whitespace as recognised by `strings.Fields` (ASCII forms). -/
def isSpaceChar (c : Char) : Bool :=
  c.toNat = 32 || c.toNat = 9 || c.toNat = 10 || c.toNat = 13 || c.toNat = 11 || c.toNat = 12

/-- Worker for `fields`: split around whitespace runs, dropping empty tokens. -/
def fieldsAux : List Char → List Char → List String
  | [], [] => []
  | [], t :: ts => [⟨(t :: ts).reverse⟩]
  | c :: cs, tok =>
    if isSpaceChar c then
      match tok with
      | [] => fieldsAux cs []
      | t :: ts => ⟨(t :: ts).reverse⟩ :: fieldsAux cs []
    else fieldsAux cs (c :: tok)

/-- `strings.Fields`: the whitespace-separated tokens of a line. -/
def fields (s : String) : List String := fieldsAux s.data []

/-- Worker for `splitChar`. -/
def splitCharAux (sep : Char) : List Char → List Char → List String
  | [], tok => [⟨tok.reverse⟩]
  | c :: cs, tok =>
    if c = sep then ⟨tok.reverse⟩ :: splitCharAux sep cs [] else splitCharAux sep cs (c :: tok)

/-- `strings.Split` on a one-character separator (empty tokens kept). -/
def splitChar (sep : Char) (s : String) : List String := splitCharAux sep s.data []

/-- `strings.Join`/path join with "/" between the parts. -/
def joinSlash : List String → String
  | [] => ""
  | [s] => s
  | s :: r :: rest => s ++ "/" ++ joinSlash (r :: rest)

/-- Worker for `splitFirstSeq`. -/
def splitFirstSeqAux (sep : List Char) : List Char → List Char → Option (String × String)
  | [], _ => none
  | c :: cs, acc =>
    if List.isPrefixOf sep (c :: cs) then some (⟨acc.reverse⟩, ⟨(c :: cs).drop sep.length⟩)
    else splitFirstSeqAux sep cs (c :: acc)

/-- Split a string at the first occurrence of `sep` (Go `strings.Index` plus
slicing, also the two-way split of `strings.SplitN(s, sep, 2)`): `none` when
`sep` does not occur, otherwise the text before and after the first
occurrence. -/
def splitFirstSeq (sep : String) (s : String) : Option (String × String) :=
  splitFirstSeqAux sep.data s.data []

/-- Worker for `lastSepIdx`. -/
def lastSepIdxAux (sep : Char) : List Char → Nat → Option Nat → Option Nat
  | [], _, best => best
  | c :: cs, i, best => lastSepIdxAux sep cs (i + 1) (if c = sep then some i else best)

/-- Index of the last occurrence of `sep` (Go `strings.LastIndex` for a
one-character separator). -/
def lastSepIdx (sep : Char) (s : String) : Option Nat := lastSepIdxAux sep s.data 0 none

/-- ASCII lowercasing of one character (`strings.ToLower` on the ASCII data
this code feeds it: hex object hashes). -/
def lowerChar (c : Char) : Char :=
  if 65 ≤ c.toNat ∧ c.toNat ≤ 90 then Char.ofNat (c.toNat + 32) else c

/-- ASCII `strings.ToLower`. -/
def asciiLower (s : String) : String := ⟨s.data.map lowerChar⟩

/-- `strings.TrimSpace` (ASCII whitespace). -/
def trimSpace (s : String) : String :=
  ⟨((s.data.dropWhile isSpaceChar).reverse.dropWhile isSpaceChar).reverse⟩

/-- `strings.HasPrefix` over character data. -/
def hasPrefixStr (pre s : String) : Bool := List.isPrefixOf pre.data s.data

/-- `strings.HasSuffix` over character data. -/
def hasSuffixStr (suf s : String) : Bool := List.isSuffixOf suf.data s.data

/-- `strings.TrimSuffix`. -/
def trimSuffixStr (suf s : String) : String :=
  if hasSuffixStr suf s then ⟨s.data.take (s.data.length - suf.data.length)⟩ else s

/-- `strings.TrimPrefix`. -/
def trimPrefixStr (pre s : String) : String :=
  if hasPrefixStr pre s then ⟨s.data.drop pre.data.length⟩ else s

/-- `strings.Contains` for a multi-character needle. -/
def containsSeq (sub s : String) : Bool := (splitFirstSeq sub s).isSome

/-! ### The content-addressable store (`pkg/store/store.go`)

The store is a root directory plus a set of filesystem nodes.  A node is
addressed by its path segments below the root and is either a directory
marker (`none`) or a file with content bytes (`some bytes`); ancestors of an
existing node exist implicitly, as they do on a real filesystem.  Operations
mirror the `store.Store` methods; `os`-level failures that the Go code can
only meet environmentally (permissions, disk full) are injected by the
per-source environment records at the call sites that check them. -/

/-- The lookup predicate of the read-back step of the `HashDir` walk: the
file node below `segments` whose relative path is `rel`. -/
def relPred (segments : List String) (rel : String)
    (kv : List String × Option (List Nat)) : Bool :=
  kv.2.isSome && List.isPrefixOf segments kv.1 &&
    decide (joinSlash (kv.1.drop segments.length) = rel)

/-- The path order `sort.Strings` uses, over character data (Go compares
byte strings; UTF-8 preserves code-point order, so the orders agree). -/
def strDataLe (a b : String) : Prop := a.data ≤ b.data

instance : DecidableRel strDataLe := fun a b => by
  unfold strDataLe; infer_instance

instance : IsTotal String strDataLe := ⟨fun a b => le_total a.data b.data⟩

instance : IsTrans String strDataLe := ⟨fun _ _ _ hab hbc => le_trans hab hbc⟩

instance : IsAntisymm String strDataLe :=
  ⟨fun _ _ hab hba => String.ext (le_antisymm hab hba)⟩

/-- Store state: the root path and the nodes below it, in creation order. -/
structure StoreFS where
  root : String
  nodes : List (List String × Option (List Nat))
deriving DecidableEq

namespace Store

/-- `Store.Path`: pure join of root and segments (`filepath.Join`; segments
here are always clean, non-empty path components). -/
def Path (fs : StoreFS) (segments : List String) : String :=
  segments.foldl (fun acc s => acc ++ "/" ++ s) fs.root

/-- `Store.Exists`: `os.Stat` succeeds exactly when the path is an existing
node or an ancestor of one. -/
def ExistsP (fs : StoreFS) (segments : List String) : Bool :=
  fs.nodes.any (fun kv => List.isPrefixOf segments kv.1)

/-- `Store.EnsureDir`: `os.MkdirAll`, idempotent; errors ignored by design. -/
def EnsureDir (fs : StoreFS) (segments : List String) : StoreFS :=
  if ExistsP fs segments then fs else ⟨fs.root, (segments, none) :: fs.nodes⟩

/-- `Store.Remove`: `os.RemoveAll` of the whole subtree, idempotent. -/
def Remove (fs : StoreFS) (segments : List String) : StoreFS :=
  ⟨fs.root, fs.nodes.filter (fun kv => !(List.isPrefixOf segments kv.1))⟩

/-- `Store.WriteFile`: create or overwrite the file node at `segments`. -/
def WriteFile (fs : StoreFS) (data : List Nat) (segments : List String) : StoreFS :=
  ⟨fs.root, (segments, some data) :: fs.nodes.filter (fun kv => !(decide (kv.1 = segments)))⟩

/-- `Store.ReadFile`: the content of the file node at `segments`, if any. -/
def ReadFile (fs : StoreFS) (segments : List String) : Option (List Nat) :=
  match fs.nodes.find? (fun kv => decide (kv.1 = segments)) with
  | some (_, some data) => some data
  | _ => none

/-- The relative paths (joined with "/") of all file nodes below `segments`,
in walk order — what the `filepath.WalkDir` callback in `HashDir` collects
(directories are skipped). -/
def walkFiles (fs : StoreFS) (segments : List String) : List String :=
  fs.nodes.filterMap (fun kv =>
    match kv.2 with
    | some _ => if List.isPrefixOf segments kv.1 then some (joinSlash (kv.1.drop segments.length)) else none
    | none => none)

/-- Content of the file with relative path `rel` below `segments` — the
`os.ReadFile(filepath.Join(dir, f))` step of `HashDir`. -/
def readRel (fs : StoreFS) (segments : List String) (rel : String) : List Nat :=
  match fs.nodes.find? (relPred segments rel) with
  | some (_, some data) => data
  | _ => []

/-- `Store.HashDir`: error when the directory does not exist (the walk fails),
otherwise `"sha256:" ++ hex` of one SHA-256 over the sorted relative file
paths, each path's bytes followed by that file's content bytes.  `sort.Strings`
sorts byte strings lexicographically; UTF-8 preserves code-point order, so
sorting character sequences is the same order. -/
def HashDir (fs : StoreFS) (segments : List String) : Except Unit String :=
  if !ExistsP fs segments then .error ()
  else
    let sorted := List.insertionSort strDataLe (walkFiles fs segments)
    .ok ("sha256:" ++ hexOfBytes (sha256 (sorted.flatMap
      (fun f => strBytes f ++ readRel fs segments f))))

end Store

/-! ### Errors (§7 taxonomy, as far as the embedded code distinguishes them) -/

/-- Error labels for the outcomes the embedded functions distinguish. -/
inductive Err
  | refNotFound
  | ambiguousShortHash
  | subprocess
  | versionResolve
  | installFailed
  | writeFailed
  | integrity
  | parseErr
  | localPath
deriving DecidableEq

/-- `source.ResolvedSource`: directory, commit/ref (git only), integrity. -/
structure ResolvedSource where
  Dir : String
  Commit : String
  Ref : String
  Integrity : String
deriving DecidableEq

/-! ### Git source (`pkg/source/git.go`)

Subprocess interactions (`git ls-remote`, the clone strategies) are oracle
inputs in `GitEnv`: the advertised ref lines a remote answers with, the
subprocess exit statuses, and the tree a successful or failed clone leaves
at the destination. -/

/-- `isHexString`: non-empty and all hexadecimal characters. -/
def isHexChar (c : Char) : Bool :=
  (48 ≤ c.toNat && c.toNat ≤ 57) || (97 ≤ c.toNat && c.toNat ≤ 102) ||
  (65 ≤ c.toNat && c.toNat ≤ 70)

/-- `isHexString s`: `s` is non-empty and contains only hex characters. -/
def isHexString (s : String) : Bool := !(decide (s.data = [])) && s.data.all isHexChar

/-- `isCommitHash`: a full 40-character hex hash. -/
def isCommitHash (s : String) : Bool := decide (s.length = 40) && isHexString s

/-- `isShortCommitHash`: an abbreviated hash of 7 to 39 hex characters. -/
def isShortCommitHash (s : String) : Bool :=
  decide (7 ≤ s.length) && decide (s.length < 40) && isHexString s

/-- `git.go`'s `GitSource`: repository URL, sub-path, ref. -/
structure GitSource where
  URL : String
  Path : String
  Ref : String
deriving DecidableEq

/-- Oracle outcomes for the git subprocesses one `Fetch` may run. -/
structure GitEnv where
  /-- Lines printed by `git ls-remote URL ref ref^\x7b\x7d`. -/
  refLines : List String
  /-- Exit success of that command. -/
  refLinesOk : Bool
  /-- Lines printed by `git ls-remote URL` (no ref filter). -/
  allLines : List String
  /-- Exit success of that command. -/
  allLinesOk : Bool
  /-- The tree a clone attempt leaves below the destination (relative keys);
  written even on failure, modelling a partially materialized clone. -/
  cloneNodes : List (List String × Option (List Nat))
  /-- Whether the clone subprocess sequence succeeds. -/
  cloneOk : Bool
deriving DecidableEq

/-- The `"^\x7b\x7d"` suffix marking a dereferenced (annotated-tag) entry. -/
def derefSuffix : List Char := ['^', '\x7b', '\x7d']

/-- The scanner loop of `resolveRef`: remember the hash of every well-formed
line, return at once on a dereferenced entry, and report not-found when no
entry was seen. -/
def resolveRefLoop : List String → String → Except Err String
  | [], commit => if commit = "" then .error .refNotFound else .ok commit
  | l :: rest, commit =>
    match fields l with
    | f0 :: f1 :: _ =>
      if List.isSuffixOf derefSuffix f1.data then .ok f0 else resolveRefLoop rest f0
    | _ => resolveRefLoop rest commit

/-- The scanner loop of `resolveShortHash`: lowercase prefix match over the
advertised object hashes, failing on a second distinct match. -/
def resolveShortLoop (pre : String) : List String → String → Except Err String
  | [], m => if m = "" then .error .refNotFound else .ok m
  | l :: rest, m =>
    match fields l with
    | f0 :: _ :: _ =>
      let hash := asciiLower f0
      if !(List.isPrefixOf pre.data hash.data) then resolveShortLoop pre rest m
      else if !(decide (m = "")) && !(decide (m = hash)) then .error .ambiguousShortHash
      else resolveShortLoop pre rest hash
    | _ => resolveShortLoop pre rest m

namespace GitSource

/-- `resolveShortHash`: list all remote refs and expand the abbreviation. -/
def resolveShortHash (g : GitSource) (env : GitEnv) : Except Err String :=
  if env.allLinesOk then resolveShortLoop (asciiLower g.Ref) env.allLines ""
  else .error .subprocess

/-- `resolveRef`: full hashes as-is; short hashes by prefix expansion;
branch/tag names via `ls-remote` on `ref` and its dereferenced form. -/
def resolveRef (g : GitSource) (env : GitEnv) : Except Err String :=
  if isCommitHash g.Ref then .ok g.Ref
  else if isShortCommitHash g.Ref then g.resolveShortHash env
  else if env.refLinesOk then resolveRefLoop env.refLines "" else .error .subprocess

end GitSource

/-- `net/url.Parse` for the URL shapes reaching this code: host = authority
after `scheme://`, path trimmed of leading `/` and trailing `.git`. -/
def urlParseHostPath (u : String) : String × String :=
  match splitFirstSeq "://" u with
  | some (_, rest) =>
    match splitFirstSeq "/" rest with
    | some (host, path) => (host, trimSuffixStr ".git" (trimPrefixStr "/" path))
    | none => (rest, "")
  | none => ("", trimSuffixStr ".git" (trimPrefixStr "/" u))

/-- `parseGitURL`: host and repository path of an HTTPS URL or the SSH
shorthand `git@host:owner/repo.git`. -/
def parseGitURL (rawURL : String) : String × String :=
  match splitFirstSeq ":" rawURL with
  | some (before, after) =>
    if !(decide (before = "")) && !(containsSeq "/" before) && !(containsSeq "://" rawURL) then
      let host := match splitFirstSeq "@" before with
        | some (_, h) => h
        | none => before
      (host, trimSuffixStr ".git" after)
    else
      urlParseHostPath rawURL
  | none => urlParseHostPath rawURL

namespace GitSource

/-- `repoSegments`: `["repos", host] ++ repo path parts ++ [commit]`. -/
def repoSegments (g : GitSource) (commit : String) : List String :=
  let hp := parseGitURL g.URL
  ["repos", hp.1] ++ splitChar '/' hp.2 ++ [commit]

/-- Apply the tree a subprocess (clone/install) writes below `segments`. -/
def applyNodes (fs : StoreFS) (segments : List String)
    (nodes : List (List String × Option (List Nat))) : StoreFS :=
  nodes.foldl
    (fun f kv =>
      match kv.2 with
      | some data => Store.WriteFile f data (segments ++ kv.1)
      | none => Store.EnsureDir f (segments ++ kv.1))
    fs

/-- The content segments of a fetched clone: the sub-path within the clone
when one is configured, the clone root otherwise. -/
def contentSegments (g : GitSource) (segs : List String) : List String :=
  if g.Path = "" then segs else segs ++ splitChar '/' g.Path

/-- Steps 6–7 of `GitSource.Fetch`: integrity hash over the content
sub-directory, then the resolved result pointing at the sub-path. -/
def fetchFinish (g : GitSource) (commit : String) (segs : List String) (fs' : StoreFS) :
    Except Err ResolvedSource × StoreFS :=
  let cs := g.contentSegments segs
  match Store.HashDir fs' cs with
  | .error _ => (.error .integrity, fs')
  | .ok integrity => (.ok ⟨Store.Path fs' cs, commit, g.Ref, integrity⟩, fs')

/-- `GitSource.Fetch`: resolve the ref, check the cache, clone on a miss
(removing the partial entry when the clone fails), then hash the content
sub-directory.  Both clone strategies (`init`+`fetch`-by-SHA for raw hex
refs, shallow `--branch` clone otherwise) are subprocess sequences whose
observable effect is the tree and exit status carried by `env`.  Returns the
result together with the store state it leaves behind. -/
def Fetch (g : GitSource) (env : GitEnv) (fs : StoreFS) :
    Except Err ResolvedSource × StoreFS :=
  match g.resolveRef env with
  | .error e => (.error e, fs)
  | .ok commit =>
    let segs := g.repoSegments commit
    if Store.ExistsP fs segs then g.fetchFinish commit segs fs
    else
      let fs1 := Store.EnsureDir fs segs.dropLast
      let fs2 := applyNodes fs1 segs env.cloneNodes
      if env.cloneOk then g.fetchFinish commit segs fs2
      else (.error .subprocess, Store.Remove fs2 segs)

end GitSource

/-! ### Managed-package sources (`npm.go`, `uv.go`, `go.go`)

Each source carries its package spec and its MCP configuration.  The
configuration only ever reaches the store as `toml.Marshal(s.MCPConfig)`, a
pure serialization applied once per `Fetch`, so the embedding represents the
configuration by those marshaled descriptor bytes (`MCPData`).  Registry
queries and install subprocesses are oracle inputs in `PkgEnv`. -/

/-- Decidable equality for `Except`, used to evaluate fetch outcomes on
concrete inputs. -/
instance instDecEqExcept {ε α : Type} [DecidableEq ε] [DecidableEq α] :
    DecidableEq (Except ε α) := fun a b =>
  match a, b with
  | .ok x, .ok y => if h : x = y then isTrue (by rw [h]) else isFalse (by simp [h])
  | .ok _, .error _ => isFalse (by simp)
  | .error _, .ok _ => isFalse (by simp)
  | .error x, .error y => if h : x = y then isTrue (by rw [h]) else isFalse (by simp [h])

/-- The descriptor filename `mcp.toml` (`mcpFileName`). -/
def mcpFileName : String := "mcp.toml"

/-- Oracle outcomes for one managed-package `Fetch`. -/
structure PkgEnv where
  /-- Answer of the network version query (npm registry / PyPI JSON / go
  module proxy), already reduced to the version the code extracts. -/
  netVersion : Except Err String
  /-- The tree the install subprocess writes below the cache entry (relative
  keys), written even on failure (a partially materialized install). -/
  installNodes : List (List String × Option (List Nat))
  /-- Whether the install subprocess succeeds. -/
  installOk : Bool
  /-- Whether the `WriteFile` of the descriptor succeeds (an `os` failure
  such as a full disk makes it fail; a failed write changes nothing). -/
  writeOk : Bool
deriving DecidableEq

/-- The common tail of the managed-package and container fetches: integrity
hash over the cache entry, then the resolved result (no commit/ref). -/
def pkgFinish (segs : List String) (fs' : StoreFS) : Except Err ResolvedSource × StoreFS :=
  match Store.HashDir fs' segs with
  | .error _ => (.error .integrity, fs')
  | .ok integrity => (.ok ⟨Store.Path fs' segs, "", "", integrity⟩, fs')

/-- `npm view` output after JSON decoding: a single version string, a list
of versions, or unparsable output. -/
inductive NpmViewOut
  | single (v : String)
  | multi (vs : List String)
  | bad
deriving DecidableEq

/-- `npm.go`'s `NPMSource` (configuration as marshaled bytes). -/
structure NPMSource where
  Package : String
  MCPData : List Nat
deriving DecidableEq

namespace NPMSource

/-- `packageName`: strip the version tag after the last `@` when that `@` is
not the leading scope marker (`idx > 0`). -/
def packageName (s : NPMSource) : String :=
  match lastSepIdx '@' s.Package with
  | some idx => if 0 < idx then ⟨s.Package.data.take idx⟩ else s.Package
  | none => s.Package

/-- `resolveConcreteVersion`: `npm view <pkg> version --json`, then: a string
is used directly; a non-empty list yields its first element (the documented
arbitrary choice); an empty list or unparsable output is an error. -/
def resolveConcreteVersion (view : Except Err NpmViewOut) : Except Err String :=
  match view with
  | .error e => .error e
  | .ok (.single v) => .ok v
  | .ok (.multi []) => .error .versionResolve
  | .ok (.multi (v :: _)) => .ok v
  | .ok .bad => .error .versionResolve

/-- `getStoreSegments`: `npm / <name parts> / <version>`. -/
def getStoreSegments (s : NPMSource) (resolvedVersion : String) : List String :=
  "npm" :: splitChar '/' s.packageName ++ [resolvedVersion]

/-- `writeMCPConfig`: the descriptor file lives at `segs ++ [mcp.toml]`. -/
def mcpSegs (segs : List String) : List String := segs ++ [mcpFileName]

/-- `NPMSource.Fetch`.  On a cache miss: create the entry, install (removing
the entry if the install fails), then write the descriptor (removing the
entry if that fails).  Note that the descriptor write sits inside the
`!cached` branch. -/
def Fetch (s : NPMSource) (view : Except Err NpmViewOut) (env : PkgEnv) (fs : StoreFS) :
    Except Err ResolvedSource × StoreFS :=
  match resolveConcreteVersion view with
  | .error e => (.error e, fs)
  | .ok version =>
    let segs := s.getStoreSegments version
    if Store.ExistsP fs segs then pkgFinish segs fs
    else
      let fs1 := Store.EnsureDir fs segs
      let fs2 := GitSource.applyNodes fs1 segs env.installNodes
      if !env.installOk then (.error .installFailed, Store.Remove fs2 segs)
      else if !env.writeOk then (.error .writeFailed, Store.Remove fs2 segs)
      else pkgFinish segs (Store.WriteFile fs2 s.MCPData (mcpSegs segs))

end NPMSource

/-- `uv.go`'s `UVSource` (configuration as marshaled bytes). -/
structure UVSource where
  Package : String
  MCPData : List Nat
deriving DecidableEq

namespace UVSource

/-- `packageName`: the text before the first `==`, or the whole spec. -/
def packageName (s : UVSource) : String :=
  match splitFirstSeq "==" s.Package with
  | some (n, _) => n
  | none => s.Package

/-- `resolveConcreteVersion`: a spec containing `==` yields the text after
the first `==` directly, with no network call; otherwise the PyPI JSON
answer from the environment is used. -/
def resolveConcreteVersion (s : UVSource) (env : PkgEnv) : Except Err String :=
  match splitFirstSeq "==" s.Package with
  | some (_, v) => .ok v
  | none => env.netVersion

/-- `getStoreSegments`: `["uv", name, version]`. -/
def getStoreSegments (s : UVSource) (resolvedVersion : String) : List String :=
  ["uv", s.packageName, resolvedVersion]

/-- `UVSource.Fetch`.  On a cache miss: create the entry and install,
removing the entry if the install fails.  The descriptor is then written
unconditionally — also on a cache hit — and a failure of that write is
returned without removing the entry. -/
def Fetch (s : UVSource) (env : PkgEnv) (fs : StoreFS) :
    Except Err ResolvedSource × StoreFS :=
  match s.resolveConcreteVersion env with
  | .error e => (.error e, fs)
  | .ok version =>
    let segs := s.getStoreSegments version
    let cached := Store.ExistsP fs segs
    let fs1 :=
      if cached then fs
      else GitSource.applyNodes (Store.EnsureDir fs segs) segs env.installNodes
    if !cached && !env.installOk then (.error .installFailed, Store.Remove fs1 segs)
    else if !env.writeOk then (.error .writeFailed, fs1)
    else pkgFinish segs (Store.WriteFile fs1 s.MCPData (NPMSource.mcpSegs segs))

end UVSource

/-- `go.go`'s `GoSource` (configuration as marshaled bytes). -/
structure GoSource where
  Package : String
  MCPData : List Nat
deriving DecidableEq

namespace GoSource

/-- `modulePath`: the module path before the last `@` (when `idx > 0`). -/
def modulePath (s : GoSource) : String :=
  match lastSepIdx '@' s.Package with
  | some idx => if 0 < idx then ⟨s.Package.data.take idx⟩ else s.Package
  | none => s.Package

/-- `versionSuffix`: the text after the last `@` (when `idx > 0`), else
`"latest"`. -/
def versionSuffix (s : GoSource) : String :=
  match lastSepIdx '@' s.Package with
  | some idx => if 0 < idx then ⟨s.Package.data.drop (idx + 1)⟩ else "latest"
  | none => "latest"

/-- `resolveConcreteVersion`: `go list -m` when it succeeds with a non-empty
trimmed version, else fall back to the user-supplied version expression. -/
def resolveConcreteVersion (s : GoSource) (env : PkgEnv) : String :=
  match env.netVersion with
  | .ok out => if trimSpace out = "" then s.versionSuffix else trimSpace out
  | .error _ => s.versionSuffix

/-- `getStoreSegments`: `go / <module path parts> / <version>`. -/
def getStoreSegments (s : GoSource) (resolvedVersion : String) : List String :=
  "go" :: splitChar '/' s.modulePath ++ [resolvedVersion]

/-- `GoSource.Fetch`: same shape as `UVSource.Fetch` (install rollback on a
miss, unconditional descriptor write without rollback). -/
def Fetch (s : GoSource) (env : PkgEnv) (fs : StoreFS) :
    Except Err ResolvedSource × StoreFS :=
  let version := s.resolveConcreteVersion env
  let segs := s.getStoreSegments version
  let cached := Store.ExistsP fs segs
  let fs1 :=
    if cached then fs
    else GitSource.applyNodes (Store.EnsureDir fs segs) segs env.installNodes
  if !cached && !env.installOk then (.error .installFailed, Store.Remove fs1 segs)
  else if !env.writeOk then (.error .writeFailed, fs1)
  else pkgFinish segs (Store.WriteFile fs1 s.MCPData (NPMSource.mcpSegs segs))

end GoSource

/-! ### OCI source (`oci.go`) -/

/-- `oci.go`'s `OCISource`.  The digest-stamped configuration only reaches
the store as its marshaled bytes, written after the digest (and default
path) have been stamped in; `StampedData` is that marshaled form. -/
structure OCISource where
  Name : String
  StampedData : List Nat
deriving DecidableEq

/-- Oracle outcomes for the container engine. -/
structure OCIEnv where
  /-- Engine detection succeeds. -/
  engineOk : Bool
  /-- `Pull` (local inspect, then pull only if absent) succeeds. -/
  pullOk : Bool
  /-- The image digest reported by `ImageDigest`. -/
  digest : Except Err String
  /-- Whether the descriptor `WriteFile` succeeds. -/
  writeOk : Bool
deriving DecidableEq

namespace OCISource

/-- `OCISource.Fetch`: detect engine, pull, resolve digest, then cache under
`oci/<name>/<digest>`; the descriptor is written unconditionally, also on a
cache hit. -/
def Fetch (s : OCISource) (env : OCIEnv) (fs : StoreFS) :
    Except Err ResolvedSource × StoreFS :=
  if !env.engineOk then (.error .subprocess, fs)
  else if !env.pullOk then (.error .subprocess, fs)
  else
    match env.digest with
    | .error e => (.error e, fs)
    | .ok digest =>
      let segs := ["oci", s.Name, digest]
      let fs1 := if Store.ExistsP fs segs then fs else Store.EnsureDir fs segs
      if !env.writeOk then (.error .writeFailed, fs1)
      else pkgFinish segs (Store.WriteFile fs1 s.StampedData (NPMSource.mcpSegs segs))

end OCISource

/-! ### Static source (`StaticSource`) -/

/-- `StaticSource` (configuration as marshaled bytes — for the static source
those bytes are both the cache key input and the only content). -/
structure StaticSource where
  Name : String
  MCPData : List Nat
deriving DecidableEq

namespace StaticSource

/-- `storeSegments`: `static/<name>/<sha256-of-config>`. -/
def storeSegments (s : StaticSource) : List String :=
  ["static", s.Name, hexOfBytes (sha256 s.MCPData)]

/-- `StaticSource.Fetch`: on a cache miss, create the entry and write the
descriptor, removing the entry if the write fails; on a hit, nothing is
written. -/
def Fetch (s : StaticSource) (writeOk : Bool) (fs : StoreFS) :
    Except Err ResolvedSource × StoreFS :=
  let segs := s.storeSegments
  if Store.ExistsP fs segs then pkgFinish segs fs
  else
    let fs1 := Store.EnsureDir fs segs
    if !writeOk then (.error .writeFailed, Store.Remove fs1 segs)
    else pkgFinish segs (Store.WriteFile fs1 s.MCPData (NPMSource.mcpSegs segs))

end StaticSource

/-! ### Local source (`LocalSource`) and the reference parser (`ref.go`) -/

/-- Oracle view of the local filesystem outside the store: the absolute form
of a path and what `os.Stat` finds there. -/
inductive LocalStat
  | missing
  | fileNode
  | dirNode
deriving DecidableEq

/-- `LocalSource.Fetch`: resolve to an absolute path (`abs` is the
`filepath.Abs` answer from the environment), require an existing directory,
return it with no commit, ref, or integrity. -/
def LocalSource.Fetch (abs : String) (stat : LocalStat) : Except Err ResolvedSource :=
  match stat with
  | .missing => .error .localPath
  | .fileNode => .error .localPath
  | .dirNode => .ok ⟨abs, "", "", ""⟩

/-- `config.SkillSource`: the persisted skill-source record.  The `Short`
field is toml-ignored and unused by resolution, so it is omitted. -/
structure SkillSource where
  Git : String
  Path : String
  Ref : String
deriving DecidableEq

/-- A parsed reference: a local path source or a git source. -/
inductive ParsedSource
  | localSrc (path : String)
  | gitSrc (g : GitSource)
deriving DecidableEq

/-- `isLocalPath`: starts with `./` or `../`, or is absolute
(`filepath.IsAbs` on Unix: a leading `/`). -/
def isLocalPath (ref : String) : Bool :=
  hasPrefixStr "./" ref || hasPrefixStr "../" ref || hasPrefixStr "/" ref

/-- `ParseRef`: local paths become a `LocalSource` with only the path field
of the config record populated; everything else must match
`owner/repo[/sub/path...]@ref`. -/
def ParseRef (ref : String) : Except Err (ParsedSource × SkillSource) :=
  if isLocalPath ref then .ok (.localSrc ref, ⟨"", ref, ""⟩)
  else
    match splitFirstSeq "@" ref with
    | none => .error .parseErr
    | some (pathPart, gitRef) =>
      if gitRef = "" then .error .parseErr
      else
        let segments := splitChar '/' pathPart
        if segments.length < 2 then .error .parseErr
        else
          let owner := segments.getD 0 ""
          let repo := segments.getD 1 ""
          let subPath := joinSlash (segments.drop 2)
          let gitURL := "https://github.com/" ++ owner ++ "/" ++ repo ++ ".git"
          .ok (.gitSrc ⟨gitURL, subPath, gitRef⟩, ⟨gitURL, subPath, gitRef⟩)

/-- `SourceFromSkillConfig`: a git source when `Git` is set, else a local
source over `Path`. -/
def SourceFromSkillConfig (ss : SkillSource) : ParsedSource :=
  if ss.Git ≠ "" then .gitSrc ⟨ss.Git, ss.Path, ss.Ref⟩ else .localSrc ss.Path

/-! ### Installer lockfile short-circuit (`pkg/installer/installer.go`) -/

/-- `config.SkillLockEntry`. -/
structure SkillLockEntry where
  Git : String
  Path : String
  Ref : String
  Commit : String
  Integrity : String
deriving DecidableEq

/-- `lockKey`: git URL + "|" + path for git sources, else the path. -/
def lockKey (ss : SkillSource) : String :=
  if ss.Git ≠ "" then ss.Git ++ "|" ++ ss.Path else ss.Path

/-- `lockKeyFromEntry`. -/
def lockKeyFromEntry (entry : SkillLockEntry) : String :=
  if entry.Git ≠ "" then entry.Git ++ "|" ++ entry.Path else entry.Path

/-- `buildLockIndex` as a lookup: Go builds a map by inserting entries in
order (later duplicates overwrite earlier ones), so a lookup returns the
last entry with the key.  A `nil` lockfile is the empty list. -/
def buildLockIndex (entries : List SkillLockEntry) (key : String) : Option SkillLockEntry :=
  entries.reverse.find? (fun e => decide (lockKeyFromEntry e = key))

/-- The per-skill source selection of `InstallAll` (lines 40–54): when the
lockfile has an entry under this skill's key whose recorded ref equals the
manifest ref and whose commit is non-empty, substitute the locked commit as
the ref; otherwise use the manifest source unchanged. -/
def selectSource (ss : SkillSource) (existing : List SkillLockEntry) : ParsedSource :=
  let src := SourceFromSkillConfig ss
  match buildLockIndex existing (lockKey ss) with
  | some entry =>
    if entry.Commit ≠ "" ∧ entry.Ref = ss.Ref then
      SourceFromSkillConfig ⟨ss.Git, ss.Path, entry.Commit⟩
    else src
  | none => src

/-- `lockEntryFromResolved`: the new lock entry copies the skill's git/path
keys and records the resolved source's ref, commit and integrity. -/
def lockEntryFromResolved (ss : SkillSource) (resolved : ResolvedSource) : SkillLockEntry :=
  ⟨ss.Git, ss.Path, resolved.Ref, resolved.Commit, resolved.Integrity⟩

/-! ### General lemmas about the store model -/

/-- After `Remove`, the removed subtree no longer exists. -/
theorem existsP_remove (fs : StoreFS) (segs : List String) :
    Store.ExistsP (Store.Remove fs segs) segs = false := by
  rw [Store.ExistsP, List.any_eq_false]
  rintro kv hmem
  rw [Store.Remove] at hmem
  simp only [List.mem_filter] at hmem
  obtain ⟨-, hkeep⟩ := hmem
  cases h : List.isPrefixOf segs kv.1 with
  | false => simp [h]
  | true => rw [h] at hkeep; simp at hkeep

/-- `EnsureDir` makes its target exist. -/
theorem existsP_ensureDir (fs : StoreFS) (segs : List String) :
    Store.ExistsP (Store.EnsureDir fs segs) segs = true := by
  by_cases h : Store.ExistsP fs segs = true
  · simp only [Store.EnsureDir, h, if_true]
  · simp only [Store.EnsureDir]
    rw [if_neg (by simpa using h)]
    simp [Store.ExistsP]

/-- `WriteFile` preserves existence of any path. -/
theorem existsP_writeFile_mono (fs : StoreFS) (data : List Nat) (k segs : List String)
    (h : Store.ExistsP fs segs = true) :
    Store.ExistsP (Store.WriteFile fs data k) segs = true := by
  simp only [Store.ExistsP, Store.WriteFile, List.any_eq_true] at h ⊢
  obtain ⟨kv, hmem, hpre⟩ := h
  by_cases hk : kv.1 = k
  · exact ⟨(k, some data), List.mem_cons_self _ _, hk ▸ hpre⟩
  · exact ⟨kv, List.mem_cons_of_mem _ (List.mem_filter.mpr ⟨hmem, by simp [hk]⟩), hpre⟩

/-- `EnsureDir` preserves existence of any path. -/
theorem existsP_ensureDir_mono (fs : StoreFS) (k segs : List String)
    (h : Store.ExistsP fs segs = true) :
    Store.ExistsP (Store.EnsureDir fs k) segs = true := by
  simp only [Store.ExistsP, Store.EnsureDir] at h ⊢
  split
  · exact h
  · simp only [List.any_cons, Bool.or_eq_true]
    exact Or.inr h

/-- Applying a subprocess-written tree preserves existence of any path. -/
theorem existsP_applyNodes_mono (nodes : List (List String × Option (List Nat)))
    (fs : StoreFS) (base segs : List String)
    (h : Store.ExistsP fs segs = true) :
    Store.ExistsP (GitSource.applyNodes fs base nodes) segs = true := by
  induction nodes generalizing fs with
  | nil => exact h
  | cons kv rest ih =>
    match kv with
    | (k, some data) =>
      exact ih _ (existsP_writeFile_mono fs data (base ++ k) segs h)
    | (k, none) =>
      exact ih _ (existsP_ensureDir_mono fs (base ++ k) segs h)

/-- Reading back a file just written returns its data. -/
theorem readFile_writeFile (fs : StoreFS) (data : List Nat) (k : List String) :
    Store.ReadFile (Store.WriteFile fs data k) k = some data := by
  simp [Store.ReadFile, Store.WriteFile, List.find?]

/-- `pkgFinish` never changes the store state. -/
theorem pkgFinish_snd (segs : List String) (fs : StoreFS) :
    (pkgFinish segs fs).2 = fs := by
  unfold pkgFinish
  cases Store.HashDir fs segs <;> rfl

/-- When `pkgFinish` succeeds, the result's directory is the cache path. -/
theorem pkgFinish_ok_dir (segs : List String) (fs : StoreFS) (r : ResolvedSource)
    (h : (pkgFinish segs fs).1 = .ok r) : r.Dir = Store.Path fs segs := by
  unfold pkgFinish at h
  cases hh : Store.HashDir fs segs <;> rw [hh] at h <;> simp at h
  rw [← h]

/-- `pkgFinish` succeeds exactly when the entry exists, and then hashes it. -/
theorem pkgFinish_ok_of_existsP (segs : List String) (fs : StoreFS)
    (h : Store.ExistsP fs segs = true) :
    (pkgFinish segs fs).1.isOk = true := by
  unfold pkgFinish Store.HashDir
  simp [h, Except.isOk, Except.toBool]

/-- A string ends in any suffix appended to it. -/
theorem hasSuffixStr_append (a b : String) : hasSuffixStr b (a ++ b) = true := by
  simp [hasSuffixStr, String.data_append, List.isSuffixOf_iff_suffix, List.suffix_append]

/-! ### C10 — pinned uv package: no network, `uv/<name>/<version>` segments -/

/-- C10: for every PyPI-via-uv package spec containing `==`, version
resolution returns the text after the first `==` with no network query (the
result is the same for every environment, in particular for one whose
network answer is an error), the cache segments are
`uv/<package-name>/<pinned-version>`, and the cache path ends in
`uv/<package-name>/<pinned-version>`. -/
theorem C10_pinned_version (s : UVSource) (env : PkgEnv) (n v : String)
    (hpin : splitFirstSeq "==" s.Package = some (n, v)) :
    s.resolveConcreteVersion env = .ok v ∧
    s.getStoreSegments v = ["uv", n, v] ∧
    ∀ fs : StoreFS,
      hasSuffixStr ("uv" ++ "/" ++ n ++ "/" ++ v) (Store.Path fs (s.getStoreSegments v)) = true := by
  have hname : s.packageName = n := by
    simp [UVSource.packageName, hpin]
  refine ⟨by simp [UVSource.resolveConcreteVersion, hpin], by simp [UVSource.getStoreSegments, hname], ?_⟩
  intro fs
  have hpath : Store.Path fs (s.getStoreSegments v) =
      (fs.root ++ "/") ++ ("uv" ++ "/" ++ n ++ "/" ++ v) := by
    simp only [UVSource.getStoreSegments, hname, Store.Path, List.foldl]
    apply String.ext
    simp [String.data_append, List.append_assoc]
  rw [hpath]
  exact hasSuffixStr_append _ _

/-- C10 witness: the scenario `mcp-server-git==2026.1.14` on a store rooted
at `/store`, with a network oracle that would fail if consulted. -/
theorem C10_pinned_version_witness :
    (UVSource.mk "mcp-server-git==2026.1.14" []).resolveConcreteVersion
        ⟨.error .versionResolve, [], true, true⟩ = .ok "2026.1.14" ∧
    (UVSource.mk "mcp-server-git==2026.1.14" []).getStoreSegments "2026.1.14" =
        ["uv", "mcp-server-git", "2026.1.14"] ∧
    hasSuffixStr ("uv" ++ "/" ++ "mcp-server-git" ++ "/" ++ "2026.1.14")
        (Store.Path ⟨"/store", []⟩
          ((UVSource.mk "mcp-server-git==2026.1.14" []).getStoreSegments "2026.1.14")) = true := by
  obtain ⟨h1, h2, h3⟩ :=
    C10_pinned_version (UVSource.mk "mcp-server-git==2026.1.14" [])
      ⟨.error .versionResolve, [], true, true⟩ "mcp-server-git" "2026.1.14" (by decide)
  exact ⟨h1, h2, h3 ⟨"/store", []⟩⟩

/-! ### C8 — reference parsing -/

/-- C8: `ParseRef` returns a local source exactly for `./`-, `../`- or
`/`-prefixed strings, yielding a config record with only the path populated;
every other string must split at its first `@` into a path part (at least
`owner/repo`) and a non-empty ref, else a parse error; on success the git
URL is `https://github.com/<owner>/<repo>.git`, the sub-path joins the
remaining segments, and the ref is the text after the first `@`. -/
theorem C8_parse_ref (ref : String) :
    (isLocalPath ref = true → ParseRef ref = .ok (.localSrc ref, ⟨"", ref, ""⟩)) ∧
    (isLocalPath ref = false → splitFirstSeq "@" ref = none → ParseRef ref = .error .parseErr) ∧
    (∀ pathPart gitRef, isLocalPath ref = false →
      splitFirstSeq "@" ref = some (pathPart, gitRef) → gitRef = "" →
      ParseRef ref = .error .parseErr) ∧
    (∀ pathPart gitRef, isLocalPath ref = false →
      splitFirstSeq "@" ref = some (pathPart, gitRef) → gitRef ≠ "" →
      (splitChar '/' pathPart).length < 2 → ParseRef ref = .error .parseErr) ∧
    (∀ pathPart gitRef owner repo rest, isLocalPath ref = false →
      splitFirstSeq "@" ref = some (pathPart, gitRef) → gitRef ≠ "" →
      splitChar '/' pathPart = owner :: repo :: rest →
      ParseRef ref =
        .ok (.gitSrc ⟨"https://github.com/" ++ owner ++ "/" ++ repo ++ ".git",
                      joinSlash rest, gitRef⟩,
             ⟨"https://github.com/" ++ owner ++ "/" ++ repo ++ ".git",
              joinSlash rest, gitRef⟩)) := by
  refine ⟨fun hl => by simp [ParseRef, hl], fun hl hsplit => by simp [ParseRef, hl, hsplit],
    fun p r hl hsplit hr => by simp [ParseRef, hl, hsplit, hr],
    fun p r hl hsplit hr hlen => ?_, fun p r owner repo rest hl hsplit hr hsegs => ?_⟩
  · simp only [ParseRef, hl, Bool.false_eq_true, if_false, hsplit, hr, if_neg hr]
    rw [if_pos hlen]
  · simp only [ParseRef, hl, Bool.false_eq_true, if_false, hsplit, hr, if_neg hr, hsegs]
    rw [if_neg (by simp)]
    simp

/-- C8 witness: the three scenario references from the specification. -/
theorem C8_parse_ref_witness :
    ParseRef "anthropics/skills/skills/pdf@main" =
      .ok (.gitSrc ⟨"https://github.com/anthropics/skills.git", "skills/pdf", "main"⟩,
           ⟨"https://github.com/anthropics/skills.git", "skills/pdf", "main"⟩) ∧
    ParseRef "anthropics/skills" = .error .parseErr ∧
    ParseRef "./local/skill" = .ok (.localSrc "./local/skill", ⟨"", "./local/skill", ""⟩) := by
  refine ⟨?_, ?_, ?_⟩
  · have h := ((C8_parse_ref "anthropics/skills/skills/pdf@main").2.2.2.2)
      "anthropics/skills/skills/pdf" "main" "anthropics" "skills" ["skills", "pdf"]
      (by decide) (by decide) (by decide) (by decide)
    simpa using h
  · exact ((C8_parse_ref "anthropics/skills").2.1) (by decide) (by decide)
  · exact ((C8_parse_ref "./local/skill").1) (by decide)

/-! ### C1 — descriptor rewrite on every Fetch

The claim asserts that all managed-package sources (npm, uv, go) and the OCI
source rewrite `mcp.toml` on every call, including cache hits.  That holds
for uv, go and OCI, whose `Fetch` writes the descriptor outside the
cache-miss branch, but not for npm: `NPMSource.Fetch` writes the descriptor
inside its `if !cached` block, so a cache hit leaves a stale descriptor in
place. -/

/-- C1 counterexample: an npm `Fetch` whose resolved identity is already
cached succeeds without touching the store, leaving the existing descriptor
bytes `[1, 2, 3]` in place even though the marshaled configuration is
`[9, 9]` — the descriptor is not rewritten on a cache hit. -/
theorem C1_counterexample :
    ((NPMSource.mk "p" [9, 9]).Fetch (.ok (.single "1.0.0"))
        ⟨.error .versionResolve, [], true, true⟩
        ⟨"/root", [(["npm", "p", "1.0.0", "mcp.toml"], some [1, 2, 3])]⟩).1.isOk = true ∧
    ((NPMSource.mk "p" [9, 9]).Fetch (.ok (.single "1.0.0"))
        ⟨.error .versionResolve, [], true, true⟩
        ⟨"/root", [(["npm", "p", "1.0.0", "mcp.toml"], some [1, 2, 3])]⟩).2 =
      ⟨"/root", [(["npm", "p", "1.0.0", "mcp.toml"], some [1, 2, 3])]⟩ ∧
    Store.ReadFile
      ((NPMSource.mk "p" [9, 9]).Fetch (.ok (.single "1.0.0"))
          ⟨.error .versionResolve, [], true, true⟩
          ⟨"/root", [(["npm", "p", "1.0.0", "mcp.toml"], some [1, 2, 3])]⟩).2
      (NPMSource.mcpSegs ((NPMSource.mk "p" [9, 9]).getStoreSegments "1.0.0")) ≠
      some (NPMSource.mk "p" [9, 9]).MCPData := by
  decide

/-- C1 as amended: uv, go and OCI rewrite the descriptor on every successful
`Fetch` (the post-state descriptor equals the marshaled configuration, with
no cache-miss hypothesis, so in particular on cache hits), while npm writes
the descriptor only when materializing a cache miss: on a cache hit its
`Fetch` leaves the store state unchanged. -/
theorem C1_amended :
    (∀ (s : UVSource) (env : PkgEnv) (fs : StoreFS) (version : String) (r : ResolvedSource),
      s.resolveConcreteVersion env = .ok version →
      (s.Fetch env fs).1 = .ok r →
      Store.ReadFile (s.Fetch env fs).2
        (NPMSource.mcpSegs (s.getStoreSegments version)) = some s.MCPData) ∧
    (∀ (s : GoSource) (env : PkgEnv) (fs : StoreFS) (r : ResolvedSource),
      (s.Fetch env fs).1 = .ok r →
      Store.ReadFile (s.Fetch env fs).2
        (NPMSource.mcpSegs (s.getStoreSegments (s.resolveConcreteVersion env))) =
        some s.MCPData) ∧
    (∀ (s : OCISource) (env : OCIEnv) (fs : StoreFS) (digest : String) (r : ResolvedSource),
      env.digest = .ok digest →
      (s.Fetch env fs).1 = .ok r →
      Store.ReadFile (s.Fetch env fs).2
        (NPMSource.mcpSegs ["oci", s.Name, digest]) = some s.StampedData) ∧
    (∀ (s : NPMSource) (view : Except Err NpmViewOut) (env : PkgEnv) (fs : StoreFS)
        (version : String),
      NPMSource.resolveConcreteVersion view = .ok version →
      Store.ExistsP fs (s.getStoreSegments version) = true →
      (s.Fetch view env fs).2 = fs) := by
  refine ⟨?uv, ?go, ?oci, ?npm⟩
  case uv =>
    intro s env fs version r hv hok
    simp only [UVSource.Fetch, hv] at hok ⊢
    cases hc : Store.ExistsP fs (s.getStoreSegments version) <;>
      cases hi : env.installOk <;> cases hw : env.writeOk
    all_goals simp only [hc, hi, hw, Bool.not_true, Bool.not_false, Bool.false_and,
      Bool.true_and, Bool.and_false, Bool.and_true, Bool.and_self, Bool.false_eq_true,
      if_true, if_false] at hok ⊢
    all_goals first
      | (simp only [pkgFinish_snd]; exact readFile_writeFile _ _ _)
      | simp_all
  case go =>
    intro s env fs r hok
    simp only [GoSource.Fetch] at hok ⊢
    cases hc : Store.ExistsP fs (s.getStoreSegments (s.resolveConcreteVersion env)) <;>
      cases hi : env.installOk <;> cases hw : env.writeOk
    all_goals simp only [hc, hi, hw, Bool.not_true, Bool.not_false, Bool.false_and,
      Bool.true_and, Bool.and_false, Bool.and_true, Bool.and_self, Bool.false_eq_true,
      if_true, if_false] at hok ⊢
    all_goals first
      | (simp only [pkgFinish_snd]; exact readFile_writeFile _ _ _)
      | simp_all
  case oci =>
    intro s env fs digest r hd hok
    simp only [OCISource.Fetch, hd] at hok ⊢
    cases he : env.engineOk <;> cases hp : env.pullOk <;> cases hw : env.writeOk
    all_goals simp only [he, hp, hw, Bool.not_true, Bool.not_false, Bool.false_eq_true,
      if_true, if_false] at hok ⊢
    all_goals first
      | (simp only [pkgFinish_snd]; exact readFile_writeFile _ _ _)
      | simp_all
  case npm =>
    intro s view env fs version hv hc
    simp only [NPMSource.Fetch, hv, hc, if_true]
    exact pkgFinish_snd _ _

/-- C1 amended witness: concrete cache-hit fetches — uv rewrites the stale
descriptor `[1]` to the configuration `[7]`, go and OCI likewise end with
their configurations on disk, and npm leaves the store untouched. -/
theorem C1_amended_witness :
    Store.ReadFile
      ((UVSource.mk "p==1.0" [7]).Fetch ⟨.error .versionResolve, [], true, true⟩
          ⟨"/r", [(["uv", "p", "1.0", "mcp.toml"], some [1])]⟩).2
      (NPMSource.mcpSegs ((UVSource.mk "p==1.0" [7]).getStoreSegments "1.0")) = some [7] ∧
    Store.ReadFile
      ((GoSource.mk "m@v1" [8]).Fetch ⟨.ok "v1.0.0", [], true, true⟩
          ⟨"/r", [(["go", "m", "v1.0.0", "mcp.toml"], some [1])]⟩).2
      (NPMSource.mcpSegs
        ((GoSource.mk "m@v1" [8]).getStoreSegments
          ((GoSource.mk "m@v1" [8]).resolveConcreteVersion
            ⟨.ok "v1.0.0", [], true, true⟩))) = some [8] ∧
    Store.ReadFile
      ((OCISource.mk "img" [9]).Fetch ⟨true, true, .ok "d1", true⟩
          ⟨"/r", [(["oci", "img", "d1", "mcp.toml"], some [1])]⟩).2
      (NPMSource.mcpSegs ["oci", "img", "d1"]) = some [9] ∧
    ((NPMSource.mk "p" [7]).Fetch (.ok (.single "1.0.0"))
        ⟨.error .versionResolve, [], true, true⟩
        ⟨"/r", [(["npm", "p", "1.0.0"], none)]⟩).2 =
      ⟨"/r", [(["npm", "p", "1.0.0"], none)]⟩ := by
  refine ⟨?_, ?_, ?_, ?_⟩
  · exact C1_amended.1 (UVSource.mk "p==1.0" [7]) ⟨.error .versionResolve, [], true, true⟩
      ⟨"/r", [(["uv", "p", "1.0", "mcp.toml"], some [1])]⟩ "1.0"
      ((((UVSource.mk "p==1.0" [7]).Fetch ⟨.error .versionResolve, [], true, true⟩
          ⟨"/r", [(["uv", "p", "1.0", "mcp.toml"], some [1])]⟩).1).toOption.getD ⟨"", "", "", ""⟩)
      (by decide) (by decide)
  · exact C1_amended.2.1 (GoSource.mk "m@v1" [8]) ⟨.ok "v1.0.0", [], true, true⟩
      ⟨"/r", [(["go", "m", "v1.0.0", "mcp.toml"], some [1])]⟩
      ((((GoSource.mk "m@v1" [8]).Fetch ⟨.ok "v1.0.0", [], true, true⟩
          ⟨"/r", [(["go", "m", "v1.0.0", "mcp.toml"], some [1])]⟩).1).toOption.getD ⟨"", "", "", ""⟩)
      (by decide)
  · exact C1_amended.2.2.1 (OCISource.mk "img" [9]) ⟨true, true, .ok "d1", true⟩
      ⟨"/r", [(["oci", "img", "d1", "mcp.toml"], some [1])]⟩ "d1"
      ((((OCISource.mk "img" [9]).Fetch ⟨true, true, .ok "d1", true⟩
          ⟨"/r", [(["oci", "img", "d1", "mcp.toml"], some [1])]⟩).1).toOption.getD ⟨"", "", "", ""⟩)
      (by decide) (by decide)
  · exact C1_amended.2.2.2 (NPMSource.mk "p" [7]) (.ok (.single "1.0.0"))
      ⟨.error .versionResolve, [], true, true⟩ ⟨"/r", [(["npm", "p", "1.0.0"], none)]⟩
      "1.0.0" (by decide) (by decide)

/-! ### C2 — rollback of partially-written cache entries on failure

The claim asserts the rollback for git, npm, uv, go and static, for clone,
install and descriptor-write failures.  Clone and install failures do roll
back everywhere, and npm and static roll back descriptor-write failures; but
uv and go write the descriptor outside the cache-miss branch, and a failure
of that write is returned without removing the freshly materialized entry,
so the subsequent `Fetch` of the same identity sees a cache hit. -/

/-- C2 counterexample: a uv `Fetch` materializing a cache miss whose install
succeeds and whose descriptor write fails returns the error but leaves the
partially-written entry in place — the subsequent fetch of `uv/p/1.0`
observes a cache hit, not a miss. -/
theorem C2_counterexample :
    ((UVSource.mk "p==1.0" [7]).Fetch
        ⟨.error .versionResolve, [([".venv", "bin", "python"], some [1])], true, false⟩
        ⟨"/r", []⟩).1 = .error .writeFailed ∧
    Store.ExistsP
      ((UVSource.mk "p==1.0" [7]).Fetch
          ⟨.error .versionResolve, [([".venv", "bin", "python"], some [1])], true, false⟩
          ⟨"/r", []⟩).2
      ((UVSource.mk "p==1.0" [7]).getStoreSegments "1.0") = true := by
  decide

/-- C2 as amended: on a cache miss, a clone failure (git) or an install
failure (npm, uv, go) or a descriptor-write failure (npm, static) removes
the partially-written entry before the error is returned, so the entry no
longer exists; but for uv and go a descriptor-write failure after a
successful install leaves the freshly-written entry in place (it is
rewritten on the next call, which sees a cache hit). -/
theorem C2_amended :
    (∀ (g : GitSource) (env : GitEnv) (fs : StoreFS) (commit : String),
      g.resolveRef env = .ok commit →
      Store.ExistsP fs (g.repoSegments commit) = false →
      env.cloneOk = false →
      (g.Fetch env fs).1 = .error .subprocess ∧
      Store.ExistsP (g.Fetch env fs).2 (g.repoSegments commit) = false) ∧
    (∀ (s : NPMSource) (view : Except Err NpmViewOut) (env : PkgEnv) (fs : StoreFS)
        (version : String),
      NPMSource.resolveConcreteVersion view = .ok version →
      Store.ExistsP fs (s.getStoreSegments version) = false →
      env.installOk = false →
      (s.Fetch view env fs).1 = .error .installFailed ∧
      Store.ExistsP (s.Fetch view env fs).2 (s.getStoreSegments version) = false) ∧
    (∀ (s : NPMSource) (view : Except Err NpmViewOut) (env : PkgEnv) (fs : StoreFS)
        (version : String),
      NPMSource.resolveConcreteVersion view = .ok version →
      Store.ExistsP fs (s.getStoreSegments version) = false →
      env.installOk = true → env.writeOk = false →
      (s.Fetch view env fs).1 = .error .writeFailed ∧
      Store.ExistsP (s.Fetch view env fs).2 (s.getStoreSegments version) = false) ∧
    (∀ (s : UVSource) (env : PkgEnv) (fs : StoreFS) (version : String),
      s.resolveConcreteVersion env = .ok version →
      Store.ExistsP fs (s.getStoreSegments version) = false →
      env.installOk = false →
      (s.Fetch env fs).1 = .error .installFailed ∧
      Store.ExistsP (s.Fetch env fs).2 (s.getStoreSegments version) = false) ∧
    (∀ (s : GoSource) (env : PkgEnv) (fs : StoreFS),
      Store.ExistsP fs (s.getStoreSegments (s.resolveConcreteVersion env)) = false →
      env.installOk = false →
      (s.Fetch env fs).1 = .error .installFailed ∧
      Store.ExistsP (s.Fetch env fs).2
        (s.getStoreSegments (s.resolveConcreteVersion env)) = false) ∧
    (∀ (s : StaticSource) (fs : StoreFS),
      Store.ExistsP fs s.storeSegments = false →
      (s.Fetch false fs).1 = .error .writeFailed ∧
      Store.ExistsP (s.Fetch false fs).2 s.storeSegments = false) ∧
    (∀ (s : UVSource) (env : PkgEnv) (fs : StoreFS) (version : String),
      s.resolveConcreteVersion env = .ok version →
      Store.ExistsP fs (s.getStoreSegments version) = false →
      env.installOk = true → env.writeOk = false →
      (s.Fetch env fs).1 = .error .writeFailed ∧
      Store.ExistsP (s.Fetch env fs).2 (s.getStoreSegments version) = true) ∧
    (∀ (s : GoSource) (env : PkgEnv) (fs : StoreFS),
      Store.ExistsP fs (s.getStoreSegments (s.resolveConcreteVersion env)) = false →
      env.installOk = true → env.writeOk = false →
      (s.Fetch env fs).1 = .error .writeFailed ∧
      Store.ExistsP (s.Fetch env fs).2
        (s.getStoreSegments (s.resolveConcreteVersion env)) = true) := by
  refine ⟨?git, ?npmInstall, ?npmWrite, ?uvInstall, ?goInstall, ?staticWrite, ?uvKeep,
    ?goKeep⟩
  case git =>
    intro g env fs commit hres hc hclone
    simp only [GitSource.Fetch, hres, hc, hclone, Bool.false_eq_true, if_false]
    exact ⟨trivial, existsP_remove _ _⟩
  case npmInstall =>
    intro s view env fs version hv hc hi
    simp only [NPMSource.Fetch, hv, hc, hi, Bool.false_eq_true, if_false, Bool.not_false,
      if_true]
    exact ⟨trivial, existsP_remove _ _⟩
  case npmWrite =>
    intro s view env fs version hv hc hi hw
    simp only [NPMSource.Fetch, hv, hc, hi, hw, Bool.false_eq_true, if_false, Bool.not_false,
      Bool.not_true, if_true]
    exact ⟨trivial, existsP_remove _ _⟩
  case uvInstall =>
    intro s env fs version hv hc hi
    simp only [UVSource.Fetch, hv, hc, hi, Bool.false_eq_true, if_false, Bool.not_false,
      Bool.and_self, if_true]
    exact ⟨trivial, existsP_remove _ _⟩
  case goInstall =>
    intro s env fs hc hi
    simp only [GoSource.Fetch, hc, hi, Bool.false_eq_true, if_false, Bool.not_false,
      Bool.and_self, if_true]
    exact ⟨trivial, existsP_remove _ _⟩
  case staticWrite =>
    intro s fs hc
    simp only [StaticSource.Fetch, hc, Bool.false_eq_true, if_false, Bool.not_false, if_true]
    exact ⟨trivial, existsP_remove _ _⟩
  case uvKeep =>
    intro s env fs version hv hc hi hw
    simp only [UVSource.Fetch, hv, hc, hi, hw, Bool.false_eq_true, if_false, Bool.not_false,
      Bool.not_true, Bool.and_false, if_true]
    refine ⟨trivial, ?_⟩
    exact existsP_applyNodes_mono _ _ _ _ (existsP_ensureDir fs _)
  case goKeep =>
    intro s env fs hc hi hw
    simp only [GoSource.Fetch, hc, hi, hw, Bool.false_eq_true, if_false, Bool.not_false,
      Bool.not_true, Bool.and_false, if_true]
    refine ⟨trivial, ?_⟩
    exact existsP_applyNodes_mono _ _ _ _ (existsP_ensureDir fs _)

/-- C2 amended witness: one concrete instance per conjunct — each failing
fetch returns its error with the entry removed, except the uv and go
descriptor-write failures, which leave the entry present. -/
theorem C2_amended_witness :
    (((GitSource.mk "https://github.com/a/b.git" "" "main").Fetch
        ⟨["c0ffee\trefs/heads/main"], true, [], false, [(["f"], some [1])], false⟩
        ⟨"/r", []⟩).1 = .error .subprocess ∧
      Store.ExistsP
        ((GitSource.mk "https://github.com/a/b.git" "" "main").Fetch
            ⟨["c0ffee\trefs/heads/main"], true, [], false, [(["f"], some [1])], false⟩
            ⟨"/r", []⟩).2
        ((GitSource.mk "https://github.com/a/b.git" "" "main").repoSegments "c0ffee") = false) ∧
    (((NPMSource.mk "p" [7]).Fetch (.ok (.single "1.0.0"))
        ⟨.error .versionResolve, [(["lib"], some [1])], false, true⟩ ⟨"/r", []⟩).1 =
        .error .installFailed ∧
      Store.ExistsP
        ((NPMSource.mk "p" [7]).Fetch (.ok (.single "1.0.0"))
            ⟨.error .versionResolve, [(["lib"], some [1])], false, true⟩ ⟨"/r", []⟩).2
        ((NPMSource.mk "p" [7]).getStoreSegments "1.0.0") = false) ∧
    (((NPMSource.mk "p" [7]).Fetch (.ok (.single "1.0.0"))
        ⟨.error .versionResolve, [(["lib"], some [1])], true, false⟩ ⟨"/r", []⟩).1 =
        .error .writeFailed ∧
      Store.ExistsP
        ((NPMSource.mk "p" [7]).Fetch (.ok (.single "1.0.0"))
            ⟨.error .versionResolve, [(["lib"], some [1])], true, false⟩ ⟨"/r", []⟩).2
        ((NPMSource.mk "p" [7]).getStoreSegments "1.0.0") = false) ∧
    (((UVSource.mk "p==1.0" [7]).Fetch
        ⟨.error .versionResolve, [(["v"], some [1])], false, true⟩ ⟨"/r", []⟩).1 =
        .error .installFailed ∧
      Store.ExistsP
        ((UVSource.mk "p==1.0" [7]).Fetch
            ⟨.error .versionResolve, [(["v"], some [1])], false, true⟩ ⟨"/r", []⟩).2
        ((UVSource.mk "p==1.0" [7]).getStoreSegments "1.0") = false) ∧
    (((GoSource.mk "m@v1" [7]).Fetch ⟨.ok "v1.0.0", [(["bin"], some [1])], false, true⟩
        ⟨"/r", []⟩).1 = .error .installFailed ∧
      Store.ExistsP
        ((GoSource.mk "m@v1" [7]).Fetch ⟨.ok "v1.0.0", [(["bin"], some [1])], false, true⟩
            ⟨"/r", []⟩).2
        ((GoSource.mk "m@v1" [7]).getStoreSegments
          ((GoSource.mk "m@v1" [7]).resolveConcreteVersion
            ⟨.ok "v1.0.0", [(["bin"], some [1])], false, true⟩)) = false) ∧
    (((StaticSource.mk "n" [5]).Fetch false ⟨"/r", []⟩).1 = .error .writeFailed ∧
      Store.ExistsP ((StaticSource.mk "n" [5]).Fetch false ⟨"/r", []⟩).2
        (StaticSource.mk "n" [5]).storeSegments = false) ∧
    (((UVSource.mk "p==1.0" [7]).Fetch
        ⟨.error .versionResolve, [(["v"], some [1])], true, false⟩ ⟨"/r", []⟩).1 =
        .error .writeFailed ∧
      Store.ExistsP
        ((UVSource.mk "p==1.0" [7]).Fetch
            ⟨.error .versionResolve, [(["v"], some [1])], true, false⟩ ⟨"/r", []⟩).2
        ((UVSource.mk "p==1.0" [7]).getStoreSegments "1.0") = true) ∧
    (((GoSource.mk "m@v1" [7]).Fetch ⟨.ok "v1.0.0", [(["bin"], some [1])], true, false⟩
        ⟨"/r", []⟩).1 = .error .writeFailed ∧
      Store.ExistsP
        ((GoSource.mk "m@v1" [7]).Fetch ⟨.ok "v1.0.0", [(["bin"], some [1])], true, false⟩
            ⟨"/r", []⟩).2
        ((GoSource.mk "m@v1" [7]).getStoreSegments
          ((GoSource.mk "m@v1" [7]).resolveConcreteVersion
            ⟨.ok "v1.0.0", [(["bin"], some [1])], true, false⟩)) = true) := by
  refine ⟨?_, ?_, ?_, ?_, ?_, ?_, ?_, ?_⟩
  · exact C2_amended.1 (GitSource.mk "https://github.com/a/b.git" "" "main")
      ⟨["c0ffee\trefs/heads/main"], true, [], false, [(["f"], some [1])], false⟩
      ⟨"/r", []⟩ "c0ffee" (by decide) (by decide) (by decide)
  · exact C2_amended.2.1 (NPMSource.mk "p" [7]) (.ok (.single "1.0.0"))
      ⟨.error .versionResolve, [(["lib"], some [1])], false, true⟩ ⟨"/r", []⟩ "1.0.0"
      (by decide) (by decide) (by decide)
  · exact C2_amended.2.2.1 (NPMSource.mk "p" [7]) (.ok (.single "1.0.0"))
      ⟨.error .versionResolve, [(["lib"], some [1])], true, false⟩ ⟨"/r", []⟩ "1.0.0"
      (by decide) (by decide) (by decide) (by decide)
  · exact C2_amended.2.2.2.1 (UVSource.mk "p==1.0" [7])
      ⟨.error .versionResolve, [(["v"], some [1])], false, true⟩ ⟨"/r", []⟩ "1.0"
      (by decide) (by decide) (by decide)
  · exact C2_amended.2.2.2.2.1 (GoSource.mk "m@v1" [7])
      ⟨.ok "v1.0.0", [(["bin"], some [1])], false, true⟩ ⟨"/r", []⟩ (by decide) (by decide)
  · exact C2_amended.2.2.2.2.2.1 (StaticSource.mk "n" [5]) ⟨"/r", []⟩ (by decide)
  · exact C2_amended.2.2.2.2.2.2.1 (UVSource.mk "p==1.0" [7])
      ⟨.error .versionResolve, [(["v"], some [1])], true, false⟩ ⟨"/r", []⟩ "1.0"
      (by decide) (by decide) (by decide) (by decide)
  · exact C2_amended.2.2.2.2.2.2.2 (GoSource.mk "m@v1" [7])
      ⟨.ok "v1.0.0", [(["bin"], some [1])], true, false⟩ ⟨"/r", []⟩
      (by decide) (by decide) (by decide)

/-! ### C6 / C7 — lockfile-assisted short-circuit -/

/-- `fetchFinish` success determines the commit and echoed ref. -/
theorem fetchFinish_ok_fields (g : GitSource) (commit : String) (segs : List String)
    (fs : StoreFS) (r : ResolvedSource)
    (h : (g.fetchFinish commit segs fs).1 = .ok r) :
    r.Ref = g.Ref ∧ r.Commit = commit := by
  unfold GitSource.fetchFinish at h
  dsimp only at h
  split at h
  · simp at h
  · injection h with h
    rw [← h]
    exact ⟨rfl, rfl⟩

/-- A successful `GitSource.Fetch` echoes its input ref into the result's
`Ref` field and records the resolved commit. -/
theorem gitFetch_ok_ref (g : GitSource) (env : GitEnv) (fs : StoreFS) (r : ResolvedSource)
    (h : (g.Fetch env fs).1 = .ok r) :
    r.Ref = g.Ref ∧ g.resolveRef env = .ok r.Commit := by
  unfold GitSource.Fetch at h
  dsimp only at h
  split at h
  next e heq => simp at h
  next commit heq =>
    split at h
    next hc =>
      obtain ⟨h1, h2⟩ := fetchFinish_ok_fields g commit _ _ r h
      exact ⟨h1, by rw [heq, h2]⟩
    next hc =>
      split at h
      next hclone =>
        obtain ⟨h1, h2⟩ := fetchFinish_ok_fields g commit _ _ r h
        exact ⟨h1, by rw [heq, h2]⟩
      next hclone => simp at h

/-- C6: when the existing lockfile's entry under the skill's (git URL, path)
key records exactly the manifest's current ref together with a non-empty
commit, `InstallAll` builds the git source with the locked commit
substituted as the ref; a 40-hex-character ref is returned as-is by ref
resolution for every environment, so no remote ref listing can influence the
result; when the recorded ref differs or no entry exists, the original
manifest ref is used. -/
theorem C6_lock_shortcircuit (ss : SkillSource) (entries : List SkillLockEntry)
    (hgit : ss.Git ≠ "") :
    (∀ entry, buildLockIndex entries (lockKey ss) = some entry →
      entry.Commit ≠ "" → entry.Ref = ss.Ref →
      selectSource ss entries = .gitSrc ⟨ss.Git, ss.Path, entry.Commit⟩ ∧
      (isCommitHash entry.Commit = true →
        ∀ env : GitEnv,
          GitSource.resolveRef ⟨ss.Git, ss.Path, entry.Commit⟩ env = .ok entry.Commit)) ∧
    (∀ entry, buildLockIndex entries (lockKey ss) = some entry →
      ¬(entry.Commit ≠ "" ∧ entry.Ref = ss.Ref) →
      selectSource ss entries = .gitSrc ⟨ss.Git, ss.Path, ss.Ref⟩) ∧
    (buildLockIndex entries (lockKey ss) = none →
      selectSource ss entries = .gitSrc ⟨ss.Git, ss.Path, ss.Ref⟩) := by
  refine ⟨?hit, ?stale, ?none⟩
  case hit =>
    intro entry hidx hcommit href
    constructor
    · simp [selectSource, hidx, hcommit, href, SourceFromSkillConfig, hgit]
    · intro h40 env
      simp [GitSource.resolveRef, h40]
  case stale =>
    intro entry hidx hcond
    simp only [selectSource, hidx]
    rw [if_neg hcond]
    simp [SourceFromSkillConfig, hgit]
  case none =>
    intro hidx
    simp [selectSource, hidx, SourceFromSkillConfig, hgit]

/-- C6 witness: a locked `main` at a full commit is substituted and resolves
without consulting the remote (the environment advertises nothing at all),
while a changed ref falls back to the manifest ref. -/
theorem C6_lock_shortcircuit_witness :
    selectSource ⟨"https://github.com/a/b.git", "p", "main"⟩
      [⟨"https://github.com/a/b.git", "p", "main",
        "94a9ed024d3859793618152ea559a168bbcbb5e2", "sha256:x"⟩] =
      .gitSrc ⟨"https://github.com/a/b.git", "p",
        "94a9ed024d3859793618152ea559a168bbcbb5e2"⟩ ∧
    GitSource.resolveRef
      ⟨"https://github.com/a/b.git", "p", "94a9ed024d3859793618152ea559a168bbcbb5e2"⟩
      ⟨[], false, [], false, [], false⟩ = .ok "94a9ed024d3859793618152ea559a168bbcbb5e2" ∧
    selectSource ⟨"https://github.com/a/b.git", "p", "dev"⟩
      [⟨"https://github.com/a/b.git", "p", "main",
        "94a9ed024d3859793618152ea559a168bbcbb5e2", "sha256:x"⟩] =
      .gitSrc ⟨"https://github.com/a/b.git", "p", "dev"⟩ := by
  have h1 := (C6_lock_shortcircuit ⟨"https://github.com/a/b.git", "p", "main"⟩
    [⟨"https://github.com/a/b.git", "p", "main",
      "94a9ed024d3859793618152ea559a168bbcbb5e2", "sha256:x"⟩] (by decide)).1
    ⟨"https://github.com/a/b.git", "p", "main",
      "94a9ed024d3859793618152ea559a168bbcbb5e2", "sha256:x"⟩
    (by decide) (by decide) (by decide)
  have h2 := (C6_lock_shortcircuit ⟨"https://github.com/a/b.git", "p", "dev"⟩
    [⟨"https://github.com/a/b.git", "p", "main",
      "94a9ed024d3859793618152ea559a168bbcbb5e2", "sha256:x"⟩] (by decide)).2.1
    ⟨"https://github.com/a/b.git", "p", "main",
      "94a9ed024d3859793618152ea559a168bbcbb5e2", "sha256:x"⟩
    (by decide) (by decide)
  exact ⟨h1.1, h1.2 (by decide) ⟨[], false, [], false, [], false⟩, h2⟩

/-- C7: when the short-circuit applies, `GitSource.Fetch` echoes the
substituted commit into `ResolvedSource.Ref`, so the lock entry written by
`lockEntryFromResolved` records the commit hash as its ref; consequently any
following run whose lock entry for this skill is that new entry no longer
satisfies the short-circuit condition (the recorded ref differs from the
unchanged manifest ref) and the original ref is used again. -/
theorem C7_lock_ref_echo (ss : SkillSource) (entries : List SkillLockEntry)
    (entry : SkillLockEntry) (env : GitEnv) (fs : StoreFS) (r : ResolvedSource)
    (hgit : ss.Git ≠ "")
    (_hidx : buildLockIndex entries (lockKey ss) = some entry)
    (_hcommit : entry.Commit ≠ "") (_href : entry.Ref = ss.Ref)
    (hfetch : (GitSource.Fetch ⟨ss.Git, ss.Path, entry.Commit⟩ env fs).1 = .ok r) :
    (lockEntryFromResolved ss r).Ref = entry.Commit ∧
    (entry.Commit ≠ ss.Ref →
      ∀ entries' : List SkillLockEntry,
        buildLockIndex entries' (lockKey ss) = some (lockEntryFromResolved ss r) →
        selectSource ss entries' = .gitSrc ⟨ss.Git, ss.Path, ss.Ref⟩) := by
  have hecho : r.Ref = entry.Commit := (gitFetch_ok_ref _ env fs r hfetch).1
  refine ⟨hecho, ?_⟩
  intro hne entries' hidx'
  refine (C6_lock_shortcircuit ss entries' hgit).2.1 (lockEntryFromResolved ss r) hidx' ?_
  rintro ⟨-, hrefEq⟩
  exact hne (by rw [← hrefEq, lockEntryFromResolved, hecho])

/-- C7 witness: a concrete short-circuited fetch; the written lock entry
records the commit as its ref, and the next run with the unchanged manifest
ref `main` does not short-circuit. -/
theorem C7_lock_ref_echo_witness :
    (lockEntryFromResolved ⟨"https://github.com/a/b.git", "", "main"⟩
      ((((GitSource.mk "https://github.com/a/b.git" ""
            "94a9ed024d3859793618152ea559a168bbcbb5e2").Fetch
          ⟨[], false, [], false, [([], none), (["f.txt"], some [104, 105])], true⟩
          ⟨"/r", []⟩).1).toOption.getD ⟨"", "", "", ""⟩)).Ref =
      "94a9ed024d3859793618152ea559a168bbcbb5e2" ∧
    selectSource ⟨"https://github.com/a/b.git", "", "main"⟩
      [lockEntryFromResolved ⟨"https://github.com/a/b.git", "", "main"⟩
        ((((GitSource.mk "https://github.com/a/b.git" ""
              "94a9ed024d3859793618152ea559a168bbcbb5e2").Fetch
            ⟨[], false, [], false, [([], none), (["f.txt"], some [104, 105])], true⟩
            ⟨"/r", []⟩).1).toOption.getD ⟨"", "", "", ""⟩)] =
      .gitSrc ⟨"https://github.com/a/b.git", "", "main"⟩ := by
  have h := C7_lock_ref_echo ⟨"https://github.com/a/b.git", "", "main"⟩
    [⟨"https://github.com/a/b.git", "", "main",
      "94a9ed024d3859793618152ea559a168bbcbb5e2", "sha256:x"⟩]
    ⟨"https://github.com/a/b.git", "", "main",
      "94a9ed024d3859793618152ea559a168bbcbb5e2", "sha256:x"⟩
    ⟨[], false, [], false, [([], none), (["f.txt"], some [104, 105])], true⟩
    ⟨"/r", []⟩
    ((((GitSource.mk "https://github.com/a/b.git" ""
          "94a9ed024d3859793618152ea559a168bbcbb5e2").Fetch
        ⟨[], false, [], false, [([], none), (["f.txt"], some [104, 105])], true⟩
        ⟨"/r", []⟩).1).toOption.getD ⟨"", "", "", ""⟩)
    (by decide) (by decide) (by decide) (by decide) (by decide)
  exact ⟨h.1, h.2 (by decide) _ (by decide)⟩

/-! ### C4 / C5 — git ref resolution over the advertised entries -/

/-- The advertised entries of an `ls-remote` answer: the (object hash, ref
name) of every line with at least two whitespace-separated fields. -/
def refEntries (lines : List String) : List (String × String) :=
  lines.filterMap (fun l =>
    match fields l with
    | f0 :: f1 :: _ => some (f0, f1)
    | _ => none)

/-- An entry whose ref name ends in `^\x7b\x7d` (a dereferenced annotated
tag). -/
def isDerefEntry (e : String × String) : Bool := List.isSuffixOf derefSuffix e.2.data

/-- Tokens produced by `fields` are never empty. -/
theorem fieldsAux_ne_empty (cs : List Char) :
    ∀ (tok : List Char) (s : String), s ∈ fieldsAux cs tok → s.data ≠ [] := by
  induction cs with
  | nil =>
    intro tok s hs
    match tok, hs with
    | t :: ts, hs =>
      simp only [fieldsAux, List.mem_singleton] at hs
      subst hs
      simp
  | cons c cs ih =>
    intro tok s hs
    simp only [fieldsAux] at hs
    split at hs
    · match tok, hs with
      | [], hs => exact ih [] s hs
      | t :: ts, hs =>
        rcases List.mem_cons.mp hs with h | h
        · subst h; simp
        · exact ih [] s h
    · exact ih _ s hs

/-- First field of every advertised entry is a non-empty token. -/
theorem refEntries_fst_ne_empty (lines : List String) :
    ∀ e ∈ refEntries lines, e.1 ≠ "" := by
  intro e he
  simp only [refEntries, List.mem_filterMap] at he
  obtain ⟨l, -, hparse⟩ := he
  rcases hf : fields l with _ | ⟨f0, _ | ⟨f1, fr⟩⟩ <;> rw [hf] at hparse
  · exact absurd hparse (by simp)
  · exact absurd hparse (by simp)
  · injection hparse with hparse
    subst hparse
    intro habs
    have hmem : f0 ∈ fields l := by rw [hf]; exact List.mem_cons_self _ _
    apply fieldsAux_ne_empty l.data [] f0 hmem
    rw [show f0 = "" from habs]

/-- The `resolveRef` scanner returns the first dereferenced entry's hash. -/
theorem resolveRefLoop_deref (lines : List String) :
    ∀ (acc : String) (e : String × String),
      (refEntries lines).find? isDerefEntry = some e →
      resolveRefLoop lines acc = .ok e.1 := by
  induction lines with
  | nil => intro acc e h; simp [refEntries] at h
  | cons l rest ih =>
    intro acc e h
    rcases hf : fields l with _ | ⟨f0, _ | ⟨f1, fr⟩⟩ <;>
      simp only [refEntries, List.filterMap_cons, hf] at h <;>
      simp only [resolveRefLoop, hf]
    · exact ih acc e h
    · exact ih acc e h
    · rw [List.find?_cons] at h
      cases hd : isDerefEntry (f0, f1) with
      | true =>
        rw [hd] at h
        injection h with h
        subst h
        simp only [isDerefEntry] at hd
        simp [hd]
      | false =>
        rw [hd] at h
        simp only [isDerefEntry] at hd
        simp only [hd, Bool.false_eq_true, if_false]
        exact ih f0 e h

/-- When no advertised entry is dereferenced, the `resolveRef` scanner ends
on the last advertised entry's hash, or on the accumulator (not-found when
it is still empty). -/
theorem resolveRefLoop_plain (lines : List String) :
    ∀ acc : String,
      (∀ e ∈ refEntries lines, isDerefEntry e = false) →
      resolveRefLoop lines acc =
        (match (refEntries lines).getLast? with
          | some e => .ok e.1
          | none => if acc = "" then .error .refNotFound else .ok acc) := by
  induction lines with
  | nil => intro acc _; rfl
  | cons l rest ih =>
    intro acc hnd
    rcases hf : fields l with _ | ⟨f0, _ | ⟨f1, fr⟩⟩
    · have he : refEntries (l :: rest) = refEntries rest := by
        simp only [refEntries, List.filterMap_cons, hf]
      rw [he] at hnd ⊢
      simp only [resolveRefLoop, hf]
      exact ih acc hnd
    · have he : refEntries (l :: rest) = refEntries rest := by
        simp only [refEntries, List.filterMap_cons, hf]
      rw [he] at hnd ⊢
      simp only [resolveRefLoop, hf]
      exact ih acc hnd
    · have he : refEntries (l :: rest) = (f0, f1) :: refEntries rest := by
        simp only [refEntries, List.filterMap_cons, hf]
      rw [he] at hnd ⊢
      have hd := hnd (f0, f1) (List.mem_cons_self _ _)
      have hrest : ∀ e ∈ refEntries rest, isDerefEntry e = false :=
        fun e he' => hnd e (List.mem_cons_of_mem _ he')
      simp only [resolveRefLoop, hf]
      simp only [isDerefEntry] at hd
      simp only [hd, Bool.false_eq_true, if_false]
      rw [ih f0 hrest]
      have hne : f0 ≠ "" :=
        refEntries_fst_ne_empty (l :: rest) (f0, f1)
          (by rw [he]; exact List.mem_cons_self _ _)
      cases hre : refEntries rest with
      | nil => simp [hne]
      | cons x xs =>
        simp only [List.getLast?_cons_cons]
        cases hgl : (x :: xs).getLast? with
        | none => exact absurd hgl (by simp)
        | some y => rfl

/-- C4: for every git ref that is neither a full nor a short hex hash (a
branch or tag name), with the `ls-remote` query succeeding: if a
dereferenced (`^\x7b\x7d`) entry is advertised, its object hash is returned
(the annotated tag resolves to the tagged commit); otherwise, the last
advertised plain entry's hash is returned; and with no advertised entries at
all, ref resolution is a not-found error. -/
theorem C4_resolve_branch_tag (g : GitSource) (env : GitEnv)
    (h40 : isCommitHash g.Ref = false) (hshort : isShortCommitHash g.Ref = false)
    (hok : env.refLinesOk = true) :
    (∀ e, (refEntries env.refLines).find? isDerefEntry = some e →
      g.resolveRef env = .ok e.1) ∧
    ((∀ e ∈ refEntries env.refLines, isDerefEntry e = false) →
      ∀ e, (refEntries env.refLines).getLast? = some e →
        g.resolveRef env = .ok e.1) ∧
    (refEntries env.refLines = [] → g.resolveRef env = .error .refNotFound) := by
  have hdisp : g.resolveRef env = resolveRefLoop env.refLines "" := by
    simp [GitSource.resolveRef, h40, hshort, hok]
  refine ⟨?_, ?_, ?_⟩
  · intro e hfind
    rw [hdisp]
    exact resolveRefLoop_deref env.refLines "" e hfind
  · intro hnd e hlast
    rw [hdisp, resolveRefLoop_plain env.refLines "" hnd, hlast]
  · intro hnil
    have hnd : ∀ e ∈ refEntries env.refLines, isDerefEntry e = false := by
      rw [hnil]; intro e he; simp at he
    rw [hdisp, resolveRefLoop_plain env.refLines "" hnd, hnil]
    rfl

/-- C4 witness: resolving the annotated tag `v2.0` returns the dereferenced
commit `bbb`, not the tag object's own hash `aaa`; a plain branch resolves
to its advertised hash; and an empty answer is a not-found error. -/
theorem C4_resolve_branch_tag_witness :
    GitSource.resolveRef ⟨"https://github.com/a/b.git", "", "v2.0"⟩
      ⟨["aaa\trefs/tags/v2.0", "bbb\trefs/tags/v2.0^\x7b\x7d"], true, [], false, [], false⟩ =
      .ok "bbb" ∧
    GitSource.resolveRef ⟨"https://github.com/a/b.git", "", "main"⟩
      ⟨["c0ffee\trefs/heads/main"], true, [], false, [], false⟩ = .ok "c0ffee" ∧
    GitSource.resolveRef ⟨"https://github.com/a/b.git", "", "nope"⟩
      ⟨[], true, [], false, [], false⟩ = .error .refNotFound := by
  refine ⟨?_, ?_, ?_⟩
  · exact (C4_resolve_branch_tag ⟨"https://github.com/a/b.git", "", "v2.0"⟩
      ⟨["aaa\trefs/tags/v2.0", "bbb\trefs/tags/v2.0^\x7b\x7d"], true, [], false, [], false⟩
      (by decide) (by decide) (by decide)).1
      ("bbb", "refs/tags/v2.0^\x7b\x7d") (by decide)
  · exact (C4_resolve_branch_tag ⟨"https://github.com/a/b.git", "", "main"⟩
      ⟨["c0ffee\trefs/heads/main"], true, [], false, [], false⟩
      (by decide) (by decide) (by decide)).2.1 (by decide)
      ("c0ffee", "refs/heads/main") (by decide)
  · exact (C4_resolve_branch_tag ⟨"https://github.com/a/b.git", "", "nope"⟩
      ⟨[], true, [], false, [], false⟩ (by decide) (by decide) (by decide)).2.2 (by decide)

/-- The lowercased advertised object hashes that the lowercased short ref
prefixes, in advertisement order. -/
def shortMatches (pre : String) (lines : List String) : List String :=
  lines.filterMap (fun l =>
    match fields l with
    | f0 :: _ :: _ =>
      if List.isPrefixOf pre.data (asciiLower f0).data then some (asciiLower f0) else none
    | _ => none)

/-- Matching hashes are non-empty strings (they are lowercased tokens). -/
theorem shortMatches_ne_empty (pre : String) (lines : List String) :
    ∀ x ∈ shortMatches pre lines, x ≠ "" := by
  intro x hx
  simp only [shortMatches, List.mem_filterMap] at hx
  obtain ⟨l, -, hparse⟩ := hx
  rcases hf : fields l with _ | ⟨f0, _ | ⟨f1, fr⟩⟩ <;> rw [hf] at hparse <;>
    dsimp only at hparse
  · exact absurd hparse (by simp)
  · exact absurd hparse (by simp)
  · cases hpre : List.isPrefixOf pre.data (asciiLower f0).data with
    | false => rw [hpre] at hparse; exact absurd hparse (by simp)
    | true =>
      rw [hpre] at hparse
      simp only [if_true] at hparse
      injection hparse with hparse
      subst hparse
      intro habs
      have hmem : f0 ∈ fields l := by rw [hf]; exact List.mem_cons_self _ _
      apply fieldsAux_ne_empty l.data [] f0 hmem
      have hdata : (asciiLower f0).data = [] := by rw [habs]
      simpa [asciiLower] using hdata

/-- `shortMatches` over a line with fewer than two fields. -/
theorem shortMatches_cons_skip (pre l : String) (rest : List String)
    (hf : fields l = [] ∨ ∃ f0, fields l = [f0]) :
    shortMatches pre (l :: rest) = shortMatches pre rest := by
  rcases hf with hf | ⟨f0, hf⟩ <;> simp [shortMatches, List.filterMap_cons, hf]

/-- `shortMatches` over a well-formed line whose hash the ref prefixes. -/
theorem shortMatches_cons_hit (pre l : String) (rest : List String)
    (f0 f1 : String) (fr : List String) (hf : fields l = f0 :: f1 :: fr)
    (hpre : List.isPrefixOf pre.data (asciiLower f0).data = true) :
    shortMatches pre (l :: rest) = asciiLower f0 :: shortMatches pre rest := by
  have hp : pre.data <+: (asciiLower f0).data := List.isPrefixOf_iff_prefix.mp hpre
  simp [shortMatches, List.filterMap_cons, hf, hp]

/-- `shortMatches` over a well-formed line whose hash the ref misses. -/
theorem shortMatches_cons_miss (pre l : String) (rest : List String)
    (f0 f1 : String) (fr : List String) (hf : fields l = f0 :: f1 :: fr)
    (hpre : List.isPrefixOf pre.data (asciiLower f0).data = false) :
    shortMatches pre (l :: rest) = shortMatches pre rest := by
  have hp : ¬ pre.data <+: (asciiLower f0).data := by
    rw [← List.isPrefixOf_iff_prefix]
    simp [hpre]
  simp [shortMatches, List.filterMap_cons, hf, hp]

/-- The scanner step over a line with fewer than two fields. -/
theorem resolveShortLoop_cons_skip (pre l : String) (rest : List String) (m : String)
    (hf : fields l = [] ∨ ∃ f0, fields l = [f0]) :
    resolveShortLoop pre (l :: rest) m = resolveShortLoop pre rest m := by
  rcases hf with hf | ⟨f0, hf⟩ <;> simp [resolveShortLoop, hf]

/-- The scanner step over a line whose hash the ref misses. -/
theorem resolveShortLoop_cons_miss (pre l : String) (rest : List String) (m : String)
    (f0 f1 : String) (fr : List String) (hf : fields l = f0 :: f1 :: fr)
    (hpre : List.isPrefixOf pre.data (asciiLower f0).data = false) :
    resolveShortLoop pre (l :: rest) m = resolveShortLoop pre rest m := by
  simp [resolveShortLoop, hf, hpre]

/-- The scanner step over a matching line: fail on a second distinct hash,
else continue with the hash as accumulator. -/
theorem resolveShortLoop_cons_hit (pre l : String) (rest : List String) (m : String)
    (f0 f1 : String) (fr : List String) (hf : fields l = f0 :: f1 :: fr)
    (hpre : List.isPrefixOf pre.data (asciiLower f0).data = true) :
    resolveShortLoop pre (l :: rest) m =
      if m ≠ "" ∧ m ≠ asciiLower f0 then .error .ambiguousShortHash
      else resolveShortLoop pre rest (asciiLower f0) := by
  simp only [resolveShortLoop, hf, hpre, Bool.not_true, Bool.false_eq_true, if_false]
  by_cases hm : m ≠ "" ∧ m ≠ asciiLower f0
  · rw [if_pos hm, if_pos (by simp [hm.1, hm.2])]
  · rw [if_neg hm]
    rw [if_neg ?_]
    intro hcond
    apply hm
    simp only [Bool.and_eq_true, Bool.not_eq_true', decide_eq_false_iff_not] at hcond
    exact hcond

/-- With no matching hash, the short-hash scanner keeps its accumulator. -/
theorem resolveShortLoop_nil (pre : String) (lines : List String) :
    ∀ m, shortMatches pre lines = [] →
      resolveShortLoop pre lines m = if m = "" then .error .refNotFound else .ok m := by
  induction lines with
  | nil => intro m _; rfl
  | cons l rest ih =>
    intro m h
    rcases hf : fields l with _ | ⟨f0, _ | ⟨f1, fr⟩⟩
    · rw [shortMatches_cons_skip pre l rest (Or.inl hf)] at h
      rw [resolveShortLoop_cons_skip pre l rest m (Or.inl hf)]
      exact ih m h
    · rw [shortMatches_cons_skip pre l rest (Or.inr ⟨f0, hf⟩)] at h
      rw [resolveShortLoop_cons_skip pre l rest m (Or.inr ⟨f0, hf⟩)]
      exact ih m h
    · cases hpre : List.isPrefixOf pre.data (asciiLower f0).data with
      | true =>
        rw [shortMatches_cons_hit pre l rest f0 f1 fr hf hpre] at h
        exact absurd h (by simp)
      | false =>
        rw [shortMatches_cons_miss pre l rest f0 f1 fr hf hpre] at h
        rw [resolveShortLoop_cons_miss pre l rest m f0 f1 fr hf hpre]
        exact ih m h

/-- With matching hashes all equal to `h`, the scanner succeeds with `h`
unless its accumulator already holds a different non-empty hash. -/
theorem resolveShortLoop_allEq (pre : String) (lines : List String) (h : String) :
    shortMatches pre lines ≠ [] →
    (∀ x ∈ shortMatches pre lines, x = h) →
    ∀ m, resolveShortLoop pre lines m =
      if m = "" ∨ m = h then .ok h else .error .ambiguousShortHash := by
  induction lines with
  | nil => intro hne _ _; exact absurd rfl hne
  | cons l rest ih =>
    intro hne hall m
    rcases hf : fields l with _ | ⟨f0, _ | ⟨f1, fr⟩⟩
    · rw [shortMatches_cons_skip pre l rest (Or.inl hf)] at hne hall
      rw [resolveShortLoop_cons_skip pre l rest m (Or.inl hf)]
      exact ih hne hall m
    · rw [shortMatches_cons_skip pre l rest (Or.inr ⟨f0, hf⟩)] at hne hall
      rw [resolveShortLoop_cons_skip pre l rest m (Or.inr ⟨f0, hf⟩)]
      exact ih hne hall m
    · cases hpre : List.isPrefixOf pre.data (asciiLower f0).data with
      | false =>
        rw [shortMatches_cons_miss pre l rest f0 f1 fr hf hpre] at hne hall
        rw [resolveShortLoop_cons_miss pre l rest m f0 f1 fr hf hpre]
        exact ih hne hall m
      | true =>
        have hcons := shortMatches_cons_hit pre l rest f0 f1 fr hf hpre
        rw [hcons] at hall
        have hh : asciiLower f0 = h := hall _ (List.mem_cons_self _ _)
        have hh0 : asciiLower f0 ≠ "" :=
          shortMatches_ne_empty pre (l :: rest) _ (by rw [hcons]; exact List.mem_cons_self _ _)
        rw [resolveShortLoop_cons_hit pre l rest m f0 f1 fr hf hpre]
        by_cases hm : m = "" ∨ m = h
        · rw [if_neg (by rw [hh]; rcases hm with hm | hm <;> simp [hm]), if_pos hm]
          cases hrest : shortMatches pre rest with
          | nil =>
            rw [resolveShortLoop_nil pre rest (asciiLower f0) hrest, if_neg hh0, hh]
          | cons y ys =>
            rw [ih (by rw [hrest]; simp)
              (fun x hx => hall x (List.mem_cons_of_mem _ hx)) (asciiLower f0)]
            rw [if_pos (Or.inr hh)]
        · push_neg at hm
          rw [if_pos ⟨hm.1, by rw [hh]; exact hm.2⟩, if_neg (by push_neg; exact hm)]

/-- With two distinct matching hashes, the scanner always reports an
ambiguous short hash, whatever its accumulator holds. -/
theorem resolveShortLoop_ambig (pre : String) (lines : List String) :
    (∃ a ∈ shortMatches pre lines, ∃ b ∈ shortMatches pre lines, a ≠ b) →
    ∀ m, resolveShortLoop pre lines m = .error .ambiguousShortHash := by
  induction lines with
  | nil => intro h2 _; simp [shortMatches] at h2
  | cons l rest ih =>
    intro h2 m
    rcases hf : fields l with _ | ⟨f0, _ | ⟨f1, fr⟩⟩
    · rw [shortMatches_cons_skip pre l rest (Or.inl hf)] at h2
      rw [resolveShortLoop_cons_skip pre l rest m (Or.inl hf)]
      exact ih h2 m
    · rw [shortMatches_cons_skip pre l rest (Or.inr ⟨f0, hf⟩)] at h2
      rw [resolveShortLoop_cons_skip pre l rest m (Or.inr ⟨f0, hf⟩)]
      exact ih h2 m
    · cases hpre : List.isPrefixOf pre.data (asciiLower f0).data with
      | false =>
        rw [shortMatches_cons_miss pre l rest f0 f1 fr hf hpre] at h2
        rw [resolveShortLoop_cons_miss pre l rest m f0 f1 fr hf hpre]
        exact ih h2 m
      | true =>
        have hcons := shortMatches_cons_hit pre l rest f0 f1 fr hf hpre
        rw [hcons] at h2
        have hh0 : asciiLower f0 ≠ "" :=
          shortMatches_ne_empty pre (l :: rest) _ (by rw [hcons]; exact List.mem_cons_self _ _)
        rw [resolveShortLoop_cons_hit pre l rest m f0 f1 fr hf hpre]
        by_cases hm : m ≠ "" ∧ m ≠ asciiLower f0
        · rw [if_pos hm]
        · rw [if_neg hm]
          by_cases hrest2 : ∃ a ∈ shortMatches pre rest, ∃ b ∈ shortMatches pre rest, a ≠ b
          · exact ih hrest2 (asciiLower f0)
          · push_neg at hrest2
            obtain ⟨a, ha, b, hb, hab⟩ := h2
            have hy : ∃ y ∈ shortMatches pre rest, y ≠ asciiLower f0 := by
              rcases List.mem_cons.mp ha with rfl | ha'
              · rcases List.mem_cons.mp hb with rfl | hb'
                · exact absurd rfl hab
                · exact ⟨b, hb', fun hbe => hab hbe.symm⟩
              · rcases List.mem_cons.mp hb with rfl | hb'
                · exact ⟨a, ha', hab⟩
                · by_cases hae : a = asciiLower f0
                  · exact ⟨b, hb', fun hbe => hab (hae.trans hbe.symm)⟩
                  · exact ⟨a, ha', hae⟩
            obtain ⟨y, hy', hyne⟩ := hy
            have hally : ∀ x ∈ shortMatches pre rest, x = y := fun x hx =>
              hrest2 x hx y hy'
            rw [resolveShortLoop_allEq pre rest y
              (by intro habs; rw [habs] at hy'; simp at hy') hally (asciiLower f0)]
            rw [if_neg (by rintro (h | h); exact hh0 h; exact hyne h.symm)]

/-- C5: for a 7–39-character hex ref (and a successful unfiltered
`ls-remote`), ref resolution dispatches to short-hash expansion, which
prefix-matches the lowercased ref against the lowercased advertised hashes:
no matching hash is a not-found error, two distinct matching hashes are an
ambiguous-short-hash error (never a silently chosen hash), and a unique
matching hash is returned. -/
theorem C5_resolve_short_hash (g : GitSource) (env : GitEnv)
    (hshort : isShortCommitHash g.Ref = true) (hok : env.allLinesOk = true) :
    (isCommitHash g.Ref = false ∧ g.resolveRef env = g.resolveShortHash env) ∧
    (shortMatches (asciiLower g.Ref) env.allLines = [] →
      g.resolveShortHash env = .error .refNotFound) ∧
    ((∃ a ∈ shortMatches (asciiLower g.Ref) env.allLines,
        ∃ b ∈ shortMatches (asciiLower g.Ref) env.allLines, a ≠ b) →
      g.resolveShortHash env = .error .ambiguousShortHash) ∧
    (∀ h, shortMatches (asciiLower g.Ref) env.allLines ≠ [] →
      (∀ x ∈ shortMatches (asciiLower g.Ref) env.allLines, x = h) →
      g.resolveShortHash env = .ok h) := by
  have hlen : g.Ref.length < 40 := by
    simp only [isShortCommitHash, Bool.and_eq_true, decide_eq_true_eq] at hshort
    exact hshort.1.2
  have hcf : isCommitHash g.Ref = false := by
    rw [isCommitHash]
    have h40 : decide (g.Ref.length = 40) = false := by
      simp [Nat.ne_of_lt hlen]
    rw [h40, Bool.false_and]
  have hsh : g.resolveShortHash env = resolveShortLoop (asciiLower g.Ref) env.allLines "" := by
    simp [GitSource.resolveShortHash, hok]
  refine ⟨⟨hcf, by simp [GitSource.resolveRef, hcf, hshort]⟩, ?_, ?_, ?_⟩
  · intro hnil
    rw [hsh, resolveShortLoop_nil _ _ "" hnil]
    rfl
  · intro h2
    rw [hsh, resolveShortLoop_ambig _ _ h2 ""]
  · intro h hne hall
    rw [hsh, resolveShortLoop_allEq _ _ h hne hall ""]
    simp

/-- C5 witness: the abbreviation `abcdef1` matches a unique hash (also via
case-insensitivity), two distinct hashes yield the ambiguity error, and no
match yields not-found. -/
theorem C5_resolve_short_hash_witness :
    GitSource.resolveShortHash ⟨"https://github.com/a/b.git", "", "abcdef1"⟩
      ⟨[], false, ["ABCDEF1\trefs/heads/x", "abcdef1\trefs/tags/y"], true, [], false⟩ =
      .ok "abcdef1" ∧
    GitSource.resolveShortHash ⟨"https://github.com/a/b.git", "", "abcdef1"⟩
      ⟨[], false, ["abcdef11\trefs/heads/x", "abcdef12\trefs/tags/y"], true, [], false⟩ =
      .error .ambiguousShortHash ∧
    GitSource.resolveShortHash ⟨"https://github.com/a/b.git", "", "abcdef1"⟩
      ⟨[], false, ["1234567\trefs/heads/x"], true, [], false⟩ = .error .refNotFound := by
  refine ⟨?_, ?_, ?_⟩
  · exact (C5_resolve_short_hash ⟨"https://github.com/a/b.git", "", "abcdef1"⟩
      ⟨[], false, ["ABCDEF1\trefs/heads/x", "abcdef1\trefs/tags/y"], true, [], false⟩
      (by decide) (by decide)).2.2.2 "abcdef1" (by decide) (by decide)
  · exact (C5_resolve_short_hash ⟨"https://github.com/a/b.git", "", "abcdef1"⟩
      ⟨[], false, ["abcdef11\trefs/heads/x", "abcdef12\trefs/tags/y"], true, [], false⟩
      (by decide) (by decide)).2.2.1
      ⟨"abcdef11", by decide, "abcdef12", by decide, by decide⟩
  · exact (C5_resolve_short_hash ⟨"https://github.com/a/b.git", "", "abcdef1"⟩
      ⟨[], false, ["1234567\trefs/heads/x"], true, [], false⟩
      (by decide) (by decide)).2.1 (by decide)

/-! ### C3 — deterministic, order-independent directory hashing -/

/-- Distinct list elements cannot collapse onto the same `filterMap` image
when the image list has no duplicates. -/
theorem filterMap_nodup_inj {α β : Type} (fm : α → Option β) (l : List α)
    (hnd : (l.filterMap fm).Nodup) :
    ∀ a ∈ l, ∀ b ∈ l, ∀ x, fm a = some x → fm b = some x → a = b := by
  induction l with
  | nil => intro a ha; simp at ha
  | cons c t ih =>
    intro a ha b hb x hfa hfb
    rw [List.filterMap_cons] at hnd
    cases hc : fm c with
    | none =>
      rw [hc] at hnd
      rcases List.mem_cons.mp ha with rfl | ha' <;> rcases List.mem_cons.mp hb with rfl | hb'
      · rfl
      · rw [hc] at hfa; exact absurd hfa (by simp)
      · rw [hc] at hfb; exact absurd hfb (by simp)
      · exact ih hnd a ha' b hb' x hfa hfb
    | some y =>
      rw [hc] at hnd
      have hnotin : y ∉ t.filterMap fm := (List.nodup_cons.mp hnd).1
      have hnd' : (t.filterMap fm).Nodup := (List.nodup_cons.mp hnd).2
      rcases List.mem_cons.mp ha with rfl | ha' <;> rcases List.mem_cons.mp hb with rfl | hb'
      · rfl
      · exfalso
        apply hnotin
        have hxy : y = x := by rw [hc] at hfa; injection hfa
        exact hxy ▸ List.mem_filterMap.mpr ⟨b, hb', hfb⟩
      · exfalso
        apply hnotin
        have hxy : y = x := by rw [hc] at hfb; injection hfb
        exact hxy ▸ List.mem_filterMap.mpr ⟨a, ha', hfa⟩
      · exact ih hnd' a ha' b hb' x hfa hfb

/-- `find?` is permutation-invariant when all satisfying elements agree. -/
theorem find?_perm_of_unique {α : Type} (p : α → Bool) (l₁ l₂ : List α)
    (hperm : l₁.Perm l₂)
    (huniq : ∀ a ∈ l₁, ∀ b ∈ l₁, p a = true → p b = true → a = b) :
    l₁.find? p = l₂.find? p := by
  cases h₁ : l₁.find? p with
  | none =>
    cases h₂ : l₂.find? p with
    | none => rfl
    | some b =>
      exfalso
      have hb : b ∈ l₁ := hperm.mem_iff.mpr (List.mem_of_find?_eq_some h₂)
      exact absurd (List.find?_some h₂) (by simpa using List.find?_eq_none.mp h₁ b hb)
  | some a =>
    cases h₂ : l₂.find? p with
    | none =>
      exfalso
      have ha : a ∈ l₂ := hperm.mem_iff.mp (List.mem_of_find?_eq_some h₁)
      exact absurd (List.find?_some h₁) (by simpa using List.find?_eq_none.mp h₂ a ha)
    | some b =>
      have ha : a ∈ l₁ := List.mem_of_find?_eq_some h₁
      have hb : b ∈ l₁ := hperm.mem_iff.mpr (List.mem_of_find?_eq_some h₂)
      rw [huniq a ha b hb (List.find?_some h₁) (List.find?_some h₂)]

/-- `any` is permutation-invariant. -/
theorem any_perm {α : Type} (p : α → Bool) {l₁ l₂ : List α} (h : l₁.Perm l₂) :
    l₁.any p = l₂.any p := by
  simp [List.any_eq, h.mem_iff]

/-- Sorting by the path order is permutation-invariant. -/
theorem insertionSort_perm_eq (l₁ l₂ : List String) (h : l₁.Perm l₂) :
    List.insertionSort strDataLe l₁ = List.insertionSort strDataLe l₂ := by
  exact List.eq_of_perm_of_sorted
    (((List.perm_insertionSort strDataLe l₁).trans h).trans
      (List.perm_insertionSort strDataLe l₂).symm)
    (List.sorted_insertionSort strDataLe l₁)
    (List.sorted_insertionSort strDataLe l₂)

/-- The per-node collection step of the `HashDir` walk. -/
def walkImage (segments : List String)
    (kv : List String × Option (List Nat)) : Option String :=
  match kv.2 with
  | some _ =>
    if List.isPrefixOf segments kv.1 then some (joinSlash (kv.1.drop segments.length))
    else none
  | none => none

/-- `walkFiles` is the `filterMap` of the collection step. -/
theorem walkFiles_eq (fs : StoreFS) (segments : List String) :
    Store.walkFiles fs segments = fs.nodes.filterMap (walkImage segments) := rfl

/-- A node satisfies `relPred` exactly when the walk collects `rel` from it. -/
theorem relPred_iff_walkImage (segments : List String) (rel : String)
    (kv : List String × Option (List Nat)) :
    relPred segments rel kv = true ↔ walkImage segments kv = some rel := by
  cases hv : kv.2 with
  | none => simp [relPred, walkImage, hv]
  | some data =>
    cases hp : List.isPrefixOf segments kv.1 with
    | false => simp [relPred, walkImage, hv, hp]
    | true => simp [relPred, walkImage, hv, hp]

/-- `flatMap` respects pointwise-equal functions. -/
theorem flatMap_congr_mem {α β : Type} (l : List α) (f g : α → List β)
    (h : ∀ x ∈ l, f x = g x) : l.flatMap f = l.flatMap g := by
  induction l with
  | nil => rfl
  | cons c t ih =>
    simp only [List.flatMap_cons]
    rw [h c (List.mem_cons_self _ _), ih (fun x hx => h x (List.mem_cons_of_mem _ hx))]

/-- Reading a file by its relative path is permutation-invariant when the
walked relative paths hold no duplicates. -/
theorem readRel_perm (fs₁ fs₂ : StoreFS) (segs : List String) (rel : String)
    (hperm : fs₁.nodes.Perm fs₂.nodes)
    (hnd : (Store.walkFiles fs₁ segs).Nodup) :
    Store.readRel fs₁ segs rel = Store.readRel fs₂ segs rel := by
  unfold Store.readRel
  rw [find?_perm_of_unique (relPred segs rel) fs₁.nodes fs₂.nodes hperm ?_]
  intro a ha b hb hpa hpb
  exact filterMap_nodup_inj (walkImage segs) fs₁.nodes
    (by rw [← walkFiles_eq]; exact hnd) a ha b hb rel
    ((relPred_iff_walkImage segs rel a).mp hpa)
    ((relPred_iff_walkImage segs rel b).mp hpb)

/-- C3: `HashDir` does not depend on node creation or traversal order (a
permutation of the recorded nodes — with no duplicated relative file path —
yields the same result, and running twice on the same tree is the `fs₁ = fs₂`
case); it fails exactly when the directory does not exist; and on an
existing directory it returns `"sha256:"` followed by the hex SHA-256 of the
concatenation, over all file nodes in lexicographically sorted order of
their relative paths, of each path's bytes followed by that file's content
bytes. -/
theorem C3_hashdir :
    (∀ (fs₁ fs₂ : StoreFS) (segs : List String),
      fs₁.nodes.Perm fs₂.nodes →
      (Store.walkFiles fs₁ segs).Nodup →
      Store.HashDir fs₁ segs = Store.HashDir fs₂ segs) ∧
    (∀ (fs : StoreFS) (segs : List String),
      Store.ExistsP fs segs = false → Store.HashDir fs segs = .error ()) ∧
    (∀ (fs : StoreFS) (segs : List String),
      Store.ExistsP fs segs = true →
      Store.HashDir fs segs = .ok ("sha256:" ++ hexOfBytes (sha256
        ((List.insertionSort strDataLe (Store.walkFiles fs segs)).flatMap
          (fun f => strBytes f ++ Store.readRel fs segs f))))) := by
  refine ⟨?_, ?_, ?_⟩
  · intro fs₁ fs₂ segs hperm hnd
    have hex : Store.ExistsP fs₁ segs = Store.ExistsP fs₂ segs := by
      unfold Store.ExistsP
      exact any_perm _ hperm
    unfold Store.HashDir
    rw [← hex]
    cases hE : Store.ExistsP fs₁ segs with
    | false => simp
    | true =>
      simp only [Bool.not_true, Bool.false_eq_true, if_false]
      have hwalk : (Store.walkFiles fs₁ segs).Perm (Store.walkFiles fs₂ segs) := by
        rw [walkFiles_eq, walkFiles_eq]
        exact hperm.filterMap _
      rw [insertionSort_perm_eq _ _ hwalk]
      rw [flatMap_congr_mem _ _ (fun f => strBytes f ++ Store.readRel fs₂ segs f)
        (fun f _ => by rw [readRel_perm fs₁ fs₂ segs f hperm hnd])]
  · intro fs segs h
    simp [Store.HashDir, h]
  · intro fs segs h
    simp [Store.HashDir, h]

/-- C3 witness: the same two-file tree recorded in either creation order
hashes identically; a missing directory is an error; and a concrete
single-file tree exhibits the digest formula. -/
theorem C3_hashdir_witness :
    Store.HashDir ⟨"/r", [(["d", "b"], some [2]), (["d", "a"], some [1])]⟩ ["d"] =
      Store.HashDir ⟨"/r", [(["d", "a"], some [1]), (["d", "b"], some [2])]⟩ ["d"] ∧
    Store.HashDir ⟨"/r", []⟩ ["d"] = .error () ∧
    Store.HashDir ⟨"/r2", [(["d", "a"], some [1])]⟩ ["d"] =
      .ok ("sha256:" ++ hexOfBytes (sha256
        ((List.insertionSort strDataLe
            (Store.walkFiles ⟨"/r2", [(["d", "a"], some [1])]⟩ ["d"])).flatMap
          (fun f => strBytes f ++
            Store.readRel ⟨"/r2", [(["d", "a"], some [1])]⟩ ["d"] f)))) := by
  refine ⟨?_, ?_, ?_⟩
  · exact C3_hashdir.1 ⟨"/r", [(["d", "b"], some [2]), (["d", "a"], some [1])]⟩
      ⟨"/r", [(["d", "a"], some [1]), (["d", "b"], some [2])]⟩ ["d"]
      (List.Perm.swap (["d", "a"], some [1]) (["d", "b"], some [2]) [])
      (by decide)
  · exact C3_hashdir.2.1 ⟨"/r", []⟩ ["d"] (by decide)
  · exact C3_hashdir.2.2 ⟨"/r2", [(["d", "a"], some [1])]⟩ ["d"] (by decide)

/-! ### C9 — static-source cache-key isolation

The claim asserts that same-name static sources with byte-different
marshaled configurations always fetch into different directories.  The
cache key hashes the configuration (`static/<name>/<sha256-of-config>`), so
that holds exactly up to SHA-256 collisions — and collisions exist by
pigeonhole, since configurations are unbounded byte strings while digests
have 2^256 values.  The statement as given is therefore refutable; what
holds is: identical configurations share a `Dir`, and configurations with
different digests get different `Dir`s. -/

/-- The digest has 32 bytes. -/
theorem sha256_length (msg : List Nat) : (sha256 msg).length = 32 := by
  simp [sha256, wordBytes]

/-- Every digest byte is below 256. -/
theorem sha256_bytes_lt (msg : List Nat) : ∀ b ∈ sha256 msg, b < 256 := by
  intro b hb
  simp only [sha256, List.mem_flatMap] at hb
  obtain ⟨w, -, hw⟩ := hb
  simp only [wordBytes, List.mem_cons, List.not_mem_nil, or_false] at hw
  rcases hw with rfl | rfl | rfl | rfl <;> exact Nat.mod_lt _ (by decide)

/-- The digest of the base-256 encoding of a number, as a tuple of bounded
bytes — the pigeonhole map from more than 2^256 inputs into the 2^256
possible digests. -/
def shaFinMap (i : Fin (2 ^ 256 + 1)) : Fin 32 → Fin 256 := fun j =>
  ⟨(sha256 (Nat.digits 256 i.val)).getD j.val 0, by
    have hlen := sha256_length (Nat.digits 256 i.val)
    have hj : (j : Nat) < (sha256 (Nat.digits 256 i.val)).length := by
      rw [hlen]; exact j.isLt
    rw [List.getD_eq_getElem _ 0 hj]
    exact sha256_bytes_lt _ _ (List.getElem_mem hj)⟩

/-- Two numbers whose `shaFinMap` images agree have equal digests. -/
theorem shaFinMap_eq_digest (x y : Fin (2 ^ 256 + 1)) (h : shaFinMap x = shaFinMap y) :
    sha256 (Nat.digits 256 x.val) = sha256 (Nat.digits 256 y.val) := by
  refine List.ext_getElem (by rw [sha256_length, sha256_length]) ?_
  intro n h₁ h₂
  have hn : n < 32 := by rwa [sha256_length] at h₁
  have hv : (sha256 (Nat.digits 256 x.val)).getD n 0 =
      (sha256 (Nat.digits 256 y.val)).getD n 0 :=
    congrArg Fin.val (congrFun h ⟨n, hn⟩)
  rw [List.getD_eq_getElem _ 0 h₁, List.getD_eq_getElem _ 0 h₂] at hv
  exact hv

/-- A hash collision between two distinct byte strings, by pigeonhole. -/
theorem sha256_exists_collision :
    ∃ d₁ d₂ : List Nat, d₁ ≠ d₂ ∧ sha256 d₁ = sha256 d₂ := by
  obtain ⟨x, y, hxy, hfeq⟩ := Fintype.exists_ne_map_eq_of_card_lt shaFinMap (by
    rw [Fintype.card_fun, Fintype.card_fin, Fintype.card_fin, Fintype.card_fin]
    norm_num)
  refine ⟨Nat.digits 256 x.val, Nat.digits 256 y.val, ?_, shaFinMap_eq_digest x y hfeq⟩
  intro h
  apply hxy
  apply Fin.ext
  rw [← Nat.ofDigits_digits 256 x.val, ← Nat.ofDigits_digits 256 y.val, h]

/-- `WriteFile` does not change the store root. -/
theorem writeFile_root (fs : StoreFS) (d : List Nat) (k : List String) :
    (Store.WriteFile fs d k).root = fs.root := rfl

/-- `EnsureDir` does not change the store root. -/
theorem ensureDir_root (fs : StoreFS) (k : List String) :
    (Store.EnsureDir fs k).root = fs.root := by
  unfold Store.EnsureDir
  split <;> rfl

/-- `Path` only depends on the root. -/
theorem path_congr_root (fs₁ fs₂ : StoreFS) (segs : List String)
    (h : fs₁.root = fs₂.root) : Store.Path fs₁ segs = Store.Path fs₂ segs := by
  simp [Store.Path, h]

/-- A successful static fetch reports the cache path of the segments as its
directory. -/
theorem staticFetch_ok_dir (s : StaticSource) (fs : StoreFS) (r : ResolvedSource)
    (h : (s.Fetch true fs).1 = .ok r) : r.Dir = Store.Path fs s.storeSegments := by
  unfold StaticSource.Fetch at h
  dsimp only at h
  split at h
  · rw [pkgFinish_ok_dir _ _ _ h]
  · simp only [Bool.not_true, Bool.false_eq_true, if_false] at h
    rw [pkgFinish_ok_dir _ _ _ h]
    exact path_congr_root _ _ _ (by rw [writeFile_root, ensureDir_root])

/-- A static fetch with a succeeding descriptor write always succeeds. -/
theorem staticFetch_isOk (s : StaticSource) (fs : StoreFS) :
    ((s.Fetch true fs).1).isOk = true := by
  unfold StaticSource.Fetch
  dsimp only
  split
  next hc => exact pkgFinish_ok_of_existsP _ _ hc
  next hc =>
    simp only [Bool.not_true, Bool.false_eq_true, if_false]
    apply pkgFinish_ok_of_existsP
    apply existsP_writeFile_mono
    exact existsP_ensureDir fs _

/-- C9 counterexample: it is not true that same-name static sources with
byte-different marshaled configurations always fetch different directories —
by pigeonhole two distinct configurations share a SHA-256 digest, hence the
same `static/<name>/<digest>` cache path and the same `Dir`. -/
theorem C9_counterexample :
    ¬ (∀ (n : String) (d₁ d₂ : List Nat) (fs : StoreFS) (r₁ r₂ : ResolvedSource),
        d₁ ≠ d₂ →
        ((StaticSource.mk n d₁).Fetch true fs).1 = .ok r₁ →
        ((StaticSource.mk n d₂).Fetch true fs).1 = .ok r₂ →
        r₁.Dir ≠ r₂.Dir) := by
  intro hclaim
  obtain ⟨d₁, d₂, hne, hsha⟩ := sha256_exists_collision
  have h₁ := staticFetch_isOk (StaticSource.mk "n" d₁) ⟨"", []⟩
  have h₂ := staticFetch_isOk (StaticSource.mk "n" d₂) ⟨"", []⟩
  cases hr₁ : ((StaticSource.mk "n" d₁).Fetch true ⟨"", []⟩).1 with
  | error e => rw [hr₁] at h₁; simp [Except.isOk, Except.toBool] at h₁
  | ok r₁ =>
    cases hr₂ : ((StaticSource.mk "n" d₂).Fetch true ⟨"", []⟩).1 with
    | error e => rw [hr₂] at h₂; simp [Except.isOk, Except.toBool] at h₂
    | ok r₂ =>
      apply hclaim "n" d₁ d₂ ⟨"", []⟩ r₁ r₂ hne hr₁ hr₂
      rw [staticFetch_ok_dir _ _ _ hr₁, staticFetch_ok_dir _ _ _ hr₂]
      simp only [StaticSource.storeSegments, hsha]

/-- Characters of the hex alphabet decode injectively below 16. -/
theorem hexDigitChar_inj_fin : ∀ a b : Fin 16, hexDigitChar a = hexDigitChar b → a = b := by
  decide

/-- Hex encoding is injective on byte lists. -/
theorem hexOfBytes_inj (l₁ l₂ : List Nat) (h₁ : ∀ b ∈ l₁, b < 256) (h₂ : ∀ b ∈ l₂, b < 256)
    (h : hexOfBytes l₁ = hexOfBytes l₂) : l₁ = l₂ := by
  induction l₁ generalizing l₂ with
  | nil =>
    cases l₂ with
    | nil => rfl
    | cons b t => exact absurd (congrArg String.data h) (by simp [hexOfBytes])
  | cons a t ih =>
    cases l₂ with
    | nil => exact absurd (congrArg String.data h) (by simp [hexOfBytes])
    | cons b t₂ =>
      have hd := congrArg String.data h
      simp only [hexOfBytes, List.foldr_cons] at hd
      injection hd with hhi hd
      injection hd with hlo hd
      have ha : a < 256 := h₁ a (List.mem_cons_self _ _)
      have hb : b < 256 := h₂ b (List.mem_cons_self _ _)
      have hdivlt : a / 16 % 16 < 16 := Nat.mod_lt _ (by decide)
      have hdivlt2 : b / 16 % 16 < 16 := Nat.mod_lt _ (by decide)
      have hmodlt : a % 16 < 16 := Nat.mod_lt _ (by decide)
      have hmodlt2 : b % 16 < 16 := Nat.mod_lt _ (by decide)
      have hhieq : a / 16 % 16 = b / 16 % 16 := by
        have := hexDigitChar_inj_fin ⟨a / 16 % 16, hdivlt⟩ ⟨b / 16 % 16, hdivlt2⟩ hhi
        exact congrArg Fin.val this
      have hloeq : a % 16 = b % 16 := by
        have := hexDigitChar_inj_fin ⟨a % 16, hmodlt⟩ ⟨b % 16, hmodlt2⟩ hlo
        exact congrArg Fin.val this
      have hab : a = b := by omega
      have ht : t = t₂ := ih t₂ (fun x hx => h₁ x (List.mem_cons_of_mem _ hx))
        (fun x hx => h₂ x (List.mem_cons_of_mem _ hx)) (congrArg String.mk hd)
      rw [hab, ht]

/-- C9 as amended: for same-name static sources fetched (successfully, with
the descriptor write succeeding) from the same store, identical marshaled
configurations yield the same `Dir`, and configurations with different
SHA-256 digests yield different `Dir`s; byte-different configurations with
colliding digests — which exist by pigeonhole — share a `Dir`. -/
theorem C9_amended (n : String) (d₁ d₂ : List Nat) (fs : StoreFS) (r₁ r₂ : ResolvedSource)
    (h₁ : ((StaticSource.mk n d₁).Fetch true fs).1 = .ok r₁)
    (h₂ : ((StaticSource.mk n d₂).Fetch true fs).1 = .ok r₂) :
    (d₁ = d₂ → r₁.Dir = r₂.Dir) ∧
    (sha256 d₁ ≠ sha256 d₂ → r₁.Dir ≠ r₂.Dir) := by
  have hdir₁ := staticFetch_ok_dir _ _ _ h₁
  have hdir₂ := staticFetch_ok_dir _ _ _ h₂
  constructor
  · intro hdd
    rw [hdir₁, hdir₂]
    simp [StaticSource.storeSegments, hdd]
  · intro hsha hdir
    apply hsha
    rw [hdir₁, hdir₂] at hdir
    simp only [StaticSource.storeSegments, Store.Path, List.foldl] at hdir
    have hdata := congrArg String.data hdir
    simp only [String.data_append] at hdata
    have hhex : hexOfBytes (sha256 d₁) = hexOfBytes (sha256 d₂) := by
      apply String.ext
      exact List.append_cancel_left hdata
    exact hexOfBytes_inj _ _ (sha256_bytes_lt d₁) (sha256_bytes_lt d₂) hhex

/-- C9 amended witness: two concrete same-name static sources — equal
configurations share the directory, digest-different configurations do not. -/
theorem C9_amended_witness :
    (let out1 := ((StaticSource.mk "n" [1, 2]).Fetch true ⟨"/r", []⟩).1
     let out2 := ((StaticSource.mk "n" [3]).Fetch true ⟨"/r", []⟩).1
     (out1.toOption.getD ⟨"", "", "", ""⟩).Dir ≠
       (out2.toOption.getD ⟨"", "", "", ""⟩).Dir) ∧
    (let out1 := ((StaticSource.mk "n" [1, 2]).Fetch true ⟨"/r", []⟩).1
     (out1.toOption.getD ⟨"", "", "", ""⟩).Dir =
       (out1.toOption.getD ⟨"", "", "", ""⟩).Dir) := by
  constructor
  · exact (C9_amended "n" [1, 2] [3] ⟨"/r", []⟩
      ((((StaticSource.mk "n" [1, 2]).Fetch true ⟨"/r", []⟩).1).toOption.getD ⟨"", "", "", ""⟩)
      ((((StaticSource.mk "n" [3]).Fetch true ⟨"/r", []⟩).1).toOption.getD ⟨"", "", "", ""⟩)
      (by decide) (by decide)).2 (by decide)
  · exact (C9_amended "n" [1, 2] [1, 2] ⟨"/r", []⟩
      ((((StaticSource.mk "n" [1, 2]).Fetch true ⟨"/r", []⟩).1).toOption.getD ⟨"", "", "", ""⟩)
      ((((StaticSource.mk "n" [1, 2]).Fetch true ⟨"/r", []⟩).1).toOption.getD ⟨"", "", "", ""⟩)
      (by decide) (by decide)).1 rfl

end Apkg
